import Mathlib

/-!
# Verification of the Floraison inflorescence core

Shallow embedding of the mathematical core of the Floraison procedural
flower generator, together with proofs about it.

* B-spline basis evaluation (`floraison-core/src/math/bspline.rs`) is
  embedded over `ℚ` (the Rust code works on `f32`; the embedding uses
  exact arithmetic, reproducing every epsilon guard of the source
  literally, with the source's `1e-10` thresholds as exact rationals).
* The 3D geometry (`floraison-core/src/math/curves.rs` and the pattern
  generators of `floraison-inflorescence/src/patterns/*.rs`) is embedded
  over `ℝ`, since it involves square roots and trigonometric functions.
-/

namespace Floraison

/-! ## B-spline basis functions, from `floraison-core/src/math/bspline.rs`

The embedding is over `ℚ`.  `basisFunction` mirrors `basis_function`
(Cox–de Boor recursion with the code's three special cases: the bounds
guard, the degenerate-interval guard, and the closed right end at the
maximum knot).  `basisFunctionM` is the same function with every knot
access made through `List.get?`: Rust slice indexing panics when out of
bounds, and the `Option` result makes that partiality explicit. -/

/-- The `1e-10` threshold used by `basis_function` for all degeneracy
checks, as an exact rational. -/
def eps10 : ℚ := 1 / 10 ^ 10

lemma eps10_pos : 0 < eps10 := by norm_num [eps10]

/-- `basis_function(i, p, u, knots)` from `bspline.rs`: Cox–de Boor
recursion, with out-of-range knot reads given the (unreachable under the
bounds guard) default value `0`. -/
def basisFunction : ℕ → ℕ → ℚ → List ℚ → ℚ
  | i, 0, u, knots =>
    -- bounds checking: `i + p + 1 >= knots.len()`
    if knots.length ≤ i + 0 + 1 then 0
    else
      let ki := knots.getD i 0
      let ki1 := knots.getD (i + 1) 0
      -- degenerate interval (knots[i] == knots[i+1])
      if |ki1 - ki| < eps10 then 0
      -- normal case: u in [knots[i], knots[i+1])
      else if ki ≤ u ∧ u < ki1 then 1
      else
        -- special case: u at maximum knot value
        let maxKnot := knots.getD (knots.length - 1) 0
        if |u - maxKnot| < eps10 ∧ |ki1 - maxKnot| < eps10 then
          if ki ≤ u ∧ u ≤ ki1 then 1 else 0
        else 0
  | i, p + 1, u, knots =>
    if knots.length ≤ i + (p + 1) + 1 then 0
    else
      let leftNum := u - knots.getD i 0
      let leftDenom := knots.getD (i + (p + 1)) 0 - knots.getD i 0
      let left : ℚ :=
        if |leftDenom| < eps10 then 0
        else leftNum / leftDenom * basisFunction i p u knots
      let rightNum := knots.getD (i + (p + 1) + 1) 0 - u
      let rightDenom := knots.getD (i + (p + 1) + 1) 0 - knots.getD (i + 1) 0
      let right : ℚ :=
        if |rightDenom| < eps10 then 0
        else rightNum / rightDenom * basisFunction (i + 1) p u knots
      left + right

/-- `basis_function` with every knot read made through `List.get?`,
mirroring the partiality of Rust slice indexing (`none` = index panic). -/
def basisFunctionM : ℕ → ℕ → ℚ → List ℚ → Option ℚ
  | i, 0, u, knots =>
    if knots.length ≤ i + 0 + 1 then some 0
    else do
      let ki ← knots.get? i
      let ki1 ← knots.get? (i + 1)
      if |ki1 - ki| < eps10 then pure 0
      else if ki ≤ u ∧ u < ki1 then pure 1
      else do
        let maxKnot ← knots.get? (knots.length - 1)
        if |u - maxKnot| < eps10 ∧ |ki1 - maxKnot| < eps10 then
          if ki ≤ u ∧ u ≤ ki1 then pure 1 else pure 0
        else pure 0
  | i, p + 1, u, knots =>
    if knots.length ≤ i + (p + 1) + 1 then some 0
    else do
      let k0 ← knots.get? i
      let kp ← knots.get? (i + (p + 1))
      let leftNum := u - k0
      let leftDenom := kp - k0
      let left : ℚ ←
        if |leftDenom| < eps10 then pure 0
        else do
          let b ← basisFunctionM i p u knots
          pure (leftNum / leftDenom * b)
      let kp1 ← knots.get? (i + (p + 1) + 1)
      let k1 ← knots.get? (i + 1)
      let rightNum := kp1 - u
      let rightDenom := kp1 - k1
      let right : ℚ ←
        if |rightDenom| < eps10 then pure 0
        else do
          let b ← basisFunctionM (i + 1) p u knots
          pure (rightNum / rightDenom * b)
      pure (left + right)

/-- `generate_knot_vector(n, p, uniform)` from `bspline.rs`: a vector of
length `n + p + 1`; indices `n ≤ i` are set to `1` (last loop), indices
`p + 1 ≤ i < n` are set to `(i - p)/(n - p)` when `uniform && n > p`
(middle loop), and all remaining indices keep the initial `0`. -/
def genKnotVector (n p : ℕ) (uniform : Bool) : List ℚ :=
  (List.range (n + p + 1)).map fun i =>
    if n ≤ i then 1
    else if uniform = true ∧ p < n ∧ p + 1 ≤ i then ((i - p : ℕ) : ℚ) / ((n - p : ℕ) : ℚ)
    else 0

/-- A successful `List.get?` read returns exactly the `getD` default-`0` value. -/
lemma get?_getD (l : List ℚ) (a : ℕ) (h : a < l.length) :
    l.get? a = some (l.getD a 0) := by
  rw [List.get?_eq_getElem?, List.getElem?_eq_getElem h, List.getD_eq_getElem?_getD,
    List.getElem?_eq_getElem h]
  rfl

/-- C10: `basis_function` is total over all index inputs: the `Option`-valued
embedding (out-of-bounds knot read = `none`, as Rust indexing panics) always
returns `some`, agreeing with the total embedding; and whenever
`i + p + 1 ≥ knots.len()` the result is `0`. -/
theorem basis_function_total : ∀ (p i : ℕ) (u : ℚ) (knots : List ℚ),
    basisFunctionM i p u knots = some (basisFunction i p u knots) ∧
    (knots.length ≤ i + p + 1 → basisFunction i p u knots = 0) := by
  intro p
  induction p with
  | zero =>
    intro i u knots
    by_cases hg : knots.length ≤ i + 0 + 1
    · constructor
      · simp [basisFunctionM, basisFunction, hg]
      · intro _; simp [basisFunction, hg]
    · have h0 : i < knots.length := by omega
      have h1 : i + 1 < knots.length := by omega
      have hl : knots.length - 1 < knots.length := by omega
      constructor
      · simp only [basisFunctionM, basisFunction, hg, if_false,
          get?_getD _ _ h0, get?_getD _ _ h1, get?_getD _ _ hl,
          Option.bind_eq_bind, Option.some_bind]
        split_ifs <;> rfl
      · intro h; omega
  | succ p ih =>
    intro i u knots
    by_cases hg : knots.length ≤ i + (p + 1) + 1
    · constructor
      · simp [basisFunctionM, basisFunction, hg]
      · intro _; simp [basisFunction, hg]
    · have h0 : i < knots.length := by omega
      have h1 : i + 1 < knots.length := by omega
      have hp : i + (p + 1) < knots.length := by omega
      have hp1 : i + (p + 1) + 1 < knots.length := by omega
      constructor
      · simp only [basisFunctionM, basisFunction, hg, if_false,
          get?_getD _ _ h0, get?_getD _ _ h1, get?_getD _ _ hp, get?_getD _ _ hp1,
          (ih i u knots).1, (ih (i + 1) u knots).1,
          Option.bind_eq_bind, Option.some_bind]
        split_ifs <;> rfl
      · intro h; omega

/-- Witness for `basis_function_total` at a concrete out-of-bounds index:
`i = 5`, `p = 2` over a length-4 knot vector. -/
theorem basis_function_total_witness :
    basisFunctionM 5 2 (1 / 3 : ℚ) [0, 0, 1, 1] =
      some (basisFunction 5 2 (1 / 3 : ℚ) [0, 0, 1, 1]) ∧
    basisFunction 5 2 (1 / 3 : ℚ) [0, 0, 1, 1] = 0 :=
  ⟨(basis_function_total 2 5 (1 / 3) [0, 0, 1, 1]).1,
   (basis_function_total 2 5 (1 / 3) [0, 0, 1, 1]).2 (by norm_num)⟩

/-! ### The generated knot vector, index-wise

`kv n p i` is the value stored at index `i` of `generate_knot_vector(n, p, true)`
in the case `p < n` (the only case in which the middle loop runs). -/

/-- Index-wise value of the uniform clamped knot vector (for `p < n`). -/
def kv (n p i : ℕ) : ℚ :=
  if n ≤ i then 1
  else if p + 1 ≤ i then ((i - p : ℕ) : ℚ) / ((n - p : ℕ) : ℚ)
  else 0

lemma genKnot_length (n p : ℕ) (b : Bool) : (genKnotVector n p b).length = n + p + 1 := by
  simp [genKnotVector]

lemma genKnot_getD {n p i : ℕ} (hpn : p < n) (h : i < n + p + 1) :
    (genKnotVector n p true).getD i 0 = kv n p i := by
  have hr : (List.range (n + p + 1))[i]? = some i := by
    rw [List.getElem?_range h]
  rw [genKnotVector, List.getD_eq_getElem?_getD, List.getElem?_map, hr]
  simp only [Option.map_some', Option.getD_some, kv, hpn]
  split_ifs <;> simp_all

/-- Uniform closed form: every knot value is `(min i n - p) / (n - p)`. -/
lemma kv_eq {n p : ℕ} (hpn : p < n) (i : ℕ) :
    kv n p i = ((min i n - p : ℕ) : ℚ) / ((n - p : ℕ) : ℚ) := by
  unfold kv
  split_ifs with h1 h2
  · rw [min_eq_right h1, div_self (Nat.cast_ne_zero.mpr (by omega))]
  · rw [min_eq_left (by omega)]
  · rw [min_eq_left (by omega)]
    have h3 : i - p = 0 := by omega
    rw [h3]
    simp

lemma kv_denom_pos {n p : ℕ} (hpn : p < n) : (0 : ℚ) < ((n - p : ℕ) : ℚ) := by
  have : 0 < n - p := by omega
  exact_mod_cast this

lemma kv_nonneg {n p : ℕ} (hpn : p < n) (i : ℕ) : 0 ≤ kv n p i := by
  rw [kv_eq hpn]
  positivity

lemma kv_le_one {n p : ℕ} (hpn : p < n) (i : ℕ) : kv n p i ≤ 1 := by
  rw [kv_eq hpn]
  rw [div_le_one (kv_denom_pos hpn)]
  exact_mod_cast Nat.sub_le_sub_right (min_le_right i n) p

lemma kv_mono {n p : ℕ} (hpn : p < n) {i j : ℕ} (hij : i ≤ j) : kv n p i ≤ kv n p j := by
  rw [kv_eq hpn, kv_eq hpn]
  apply (div_le_div_right (kv_denom_pos hpn)).mpr
  exact_mod_cast Nat.sub_le_sub_right (min_le_min hij le_rfl) p

lemma kv_strict {n p : ℕ} (hpn : p < n) {i j : ℕ} (hpi : p ≤ i) (hij : i < j) (hjn : j ≤ n) :
    kv n p i < kv n p j := by
  rw [kv_eq hpn, kv_eq hpn]
  apply (div_lt_div_right (kv_denom_pos hpn)).mpr
  have h1 : min i n = i := min_eq_left (by omega)
  have h2 : min j n = j := min_eq_left hjn
  rw [h1, h2]
  exact_mod_cast (by omega : i - p < j - p)

/-- Two distinct knot values differ by at least `1 / (n - p)`; under the
spacing hypothesis `n - p ≤ 10 ^ 10` that distance is at least `eps10`. -/
lemma kv_gap {n p : ℕ} (hpn : p < n) (hgap : n - p ≤ 10 ^ 10) {a b : ℕ}
    (hne : kv n p a ≠ kv n p b) : eps10 ≤ |kv n p a - kv n p b| := by
  have hD := kv_denom_pos hpn
  have hABne : (min a n - p : ℕ) ≠ (min b n - p : ℕ) := by
    intro h
    exact hne (by rw [kv_eq hpn a, kv_eq hpn b, h])
  have hone : (1 : ℚ) ≤ |((min a n - p : ℕ) : ℚ) - ((min b n - p : ℕ) : ℚ)| := by
    rcases lt_or_gt_of_ne hABne with h | h
    · have h' := Nat.succ_le_of_lt h
      have h'' : ((min a n - p : ℕ) : ℚ) + 1 ≤ ((min b n - p : ℕ) : ℚ) := by
        exact_mod_cast h'
      rw [abs_sub_comm, abs_of_nonneg (by linarith)]
      linarith
    · have h' := Nat.succ_le_of_lt h
      have h'' : ((min b n - p : ℕ) : ℚ) + 1 ≤ ((min a n - p : ℕ) : ℚ) := by
        exact_mod_cast h'
      rw [abs_of_nonneg (by linarith)]
      linarith
  rw [kv_eq hpn a, kv_eq hpn b, div_sub_div_same, abs_div, abs_of_pos hD]
  have h10 : ((n - p : ℕ) : ℚ) ≤ 10 ^ 10 := by exact_mod_cast hgap
  calc eps10 = 1 / 10 ^ 10 := rfl
    _ ≤ 1 / ((n - p : ℕ) : ℚ) := one_div_le_one_div_of_le hD h10
    _ ≤ |((min a n - p : ℕ) : ℚ) - ((min b n - p : ℕ) : ℚ)| / ((n - p : ℕ) : ℚ) :=
        (div_le_div_iff_of_pos_right hD).mpr hone

/-- Under the spacing hypothesis the source's `1e-10` closeness test on two
knot values is exact equality. -/
lemma kv_close_iff {n p : ℕ} (hpn : p < n) (hgap : n - p ≤ 10 ^ 10) {a b : ℕ} :
    |kv n p a - kv n p b| < eps10 ↔ kv n p a = kv n p b := by
  constructor
  · intro h
    by_contra hne
    exact absurd h (not_lt.mpr (kv_gap hpn hgap hne))
  · intro h
    rw [h, sub_self, abs_zero, eps10]
    norm_num

lemma kv_of_ge_n {n p i : ℕ} (h : n ≤ i) : kv n p i = 1 := by
  rw [kv, if_pos h]

lemma kv_of_le_p {n p i : ℕ} (hpn : p < n) (h : i ≤ p) : kv n p i = 0 := by
  rw [kv, if_neg (by omega), if_neg (by omega)]

lemma kv_middle {n p i : ℕ} (hpn : p < n) (hpi : p ≤ i) (hin : i ≤ n) :
    kv n p i = ((i - p : ℕ) : ℚ) / ((n - p : ℕ) : ℚ) := by
  rw [kv_eq hpn, min_eq_left hin]

/-! ### Degree-0 support index

For `u ∈ [0, 1]` exactly one degree-0 basis function over the generated knot
vector evaluates to `1`; `suppIdx` names its index. -/

/-- The unique index whose degree-0 basis function is `1` at `u ∈ [0, 1]`. -/
def suppIdx (n p : ℕ) (u : ℚ) : ℕ :=
  p + min (⌊u * ((n - p : ℕ) : ℚ)⌋.toNat) (n - p - 1)

lemma suppIdx_ge (n p : ℕ) (u : ℚ) : p ≤ suppIdx n p u := Nat.le_add_right _ _

lemma suppIdx_lt_n {n p : ℕ} (hpn : p < n) (u : ℚ) : suppIdx n p u < n := by
  have h := min_le_right (⌊u * ((n - p : ℕ) : ℚ)⌋.toNat) (n - p - 1)
  unfold suppIdx
  omega

lemma suppIdx_at_one {n p : ℕ} (hpn : p < n) : suppIdx n p 1 = n - 1 := by
  unfold suppIdx
  rw [one_mul, Int.floor_natCast, Int.toNat_natCast, min_eq_right (by omega)]
  omega

lemma kv_suppIdx_le {n p : ℕ} (hpn : p < n) {u : ℚ} (hu0 : 0 ≤ u) :
    kv n p (suppIdx n p u) ≤ u := by
  have hD := kv_denom_pos hpn
  set f := ⌊u * ((n - p : ℕ) : ℚ)⌋.toNat with hf
  set m := min f (n - p - 1) with hm
  have hmn : suppIdx n p u = p + m := rfl
  have h1 : suppIdx n p u ≤ n := by have := suppIdx_lt_n hpn u; omega
  rw [hmn, kv_middle hpn (by omega) (by omega)]
  have h2 : p + m - p = m := by omega
  rw [h2, div_le_iff hD]
  have h3 : (m : ℚ) ≤ (f : ℚ) := by exact_mod_cast min_le_left f (n - p - 1)
  have h4 : ((f : ℕ) : ℚ) ≤ u * ((n - p : ℕ) : ℚ) := by
    have hnn : (0 : ℤ) ≤ ⌊u * ((n - p : ℕ) : ℚ)⌋ :=
      Int.floor_nonneg.mpr (by positivity)
    have : ((⌊u * ((n - p : ℕ) : ℚ)⌋.toNat : ℤ) : ℚ) = ((⌊u * ((n - p : ℕ) : ℚ)⌋ : ℤ) : ℚ) := by
      exact_mod_cast congrArg (fun z => ((z : ℤ) : ℚ)) (Int.toNat_of_nonneg hnn)
    rw [hf]
    push_cast at this ⊢
    rw [this]
    exact Int.floor_le _
  linarith

lemma lt_kv_suppIdx_succ {n p : ℕ} (hpn : p < n) {u : ℚ} (hu0 : 0 ≤ u) (hu1 : u < 1) :
    u < kv n p (suppIdx n p u + 1) := by
  have hD := kv_denom_pos hpn
  have hfl : ⌊u * ((n - p : ℕ) : ℚ)⌋ < ((n - p : ℕ) : ℤ) := by
    apply Int.floor_lt.mpr
    push_cast
    calc u * ((n - p : ℕ) : ℚ) < 1 * ((n - p : ℕ) : ℚ) := by
          exact mul_lt_mul_of_pos_right hu1 hD
      _ = ((n - p : ℕ) : ℚ) := one_mul _
  have hnn : (0 : ℤ) ≤ ⌊u * ((n - p : ℕ) : ℚ)⌋ := Int.floor_nonneg.mpr (by positivity)
  set f := ⌊u * ((n - p : ℕ) : ℚ)⌋.toNat with hf
  have hfle : f ≤ n - p - 1 := by omega
  have hmn : suppIdx n p u = p + f := by
    unfold suppIdx
    rw [← hf, min_eq_left hfle]
  have h1 : suppIdx n p u + 1 ≤ n := by omega
  rw [hmn, kv_middle hpn (by omega) (by omega)]
  have h2 : p + f + 1 - p = f + 1 := by omega
  rw [h2, lt_div_iff hD]
  have h4 : u * ((n - p : ℕ) : ℚ) < (f : ℚ) + 1 := by
    have hcast : ((f : ℕ) : ℚ) = ((⌊u * ((n - p : ℕ) : ℚ)⌋ : ℤ) : ℚ) := by
      rw [hf]
      exact_mod_cast congrArg (fun z => ((z : ℤ) : ℚ)) (Int.toNat_of_nonneg hnn)
    rw [hcast]
    exact Int.lt_floor_add_one _
  push_cast
  push_cast at h4
  linarith

lemma le_kv_suppIdx_succ {n p : ℕ} (hpn : p < n) {u : ℚ} (hu0 : 0 ≤ u) (hu1 : u ≤ 1) :
    u ≤ kv n p (suppIdx n p u + 1) := by
  rcases lt_or_eq_of_le hu1 with h | h
  · exact le_of_lt (lt_kv_suppIdx_succ hpn hu0 h)
  · subst h
    rw [suppIdx_at_one hpn, kv_of_ge_n (by omega)]

/-- Degree-0 body of `basis_function` over the generated knot vector, with all
knot reads replaced by `kv`. -/
lemma basis0_unfold {n p : ℕ} (hpn : p < n) {u : ℚ} {i : ℕ} (hg : i + 1 < n + p + 1) :
    basisFunction i 0 u (genKnotVector n p true) =
      (if |kv n p (i + 1) - kv n p i| < eps10 then 0
       else if kv n p i ≤ u ∧ u < kv n p (i + 1) then 1
       else if |u - kv n p (n + p)| < eps10 ∧ |kv n p (i + 1) - kv n p (n + p)| < eps10 then
         (if kv n p i ≤ u ∧ u ≤ kv n p (i + 1) then 1 else 0)
       else 0) := by
  simp only [basisFunction, genKnot_length, Nat.add_sub_cancel,
    if_neg (show ¬ (n + p + 1 ≤ i + 0 + 1) by omega),
    genKnot_getD hpn (show i < n + p + 1 by omega),
    genKnot_getD hpn (show i + 1 < n + p + 1 by omega),
    genKnot_getD hpn (show n + p < n + p + 1 by omega)]

/-- At `u ∈ [0, 1]` the degree-0 basis functions over the generated knot
vector form the indicator of `suppIdx n p u`. -/
lemma basis0 {n p : ℕ} (hpn : p < n) (hgap : n - p ≤ 10 ^ 10) {u : ℚ}
    (hu0 : 0 ≤ u) (hu1 : u ≤ 1) (i : ℕ) :
    basisFunction i 0 u (genKnotVector n p true) =
      if i = suppIdx n p u then 1 else 0 := by
  have hjp : p ≤ suppIdx n p u := suppIdx_ge n p u
  have hjn : suppIdx n p u < n := suppIdx_lt_n hpn u
  by_cases hg : i + 1 < n + p + 1
  swap
  · -- bounds guard: `i + 0 + 1 ≥ knots.len()`; such an `i` is never the support index
    have hij : ¬ i = suppIdx n p u := by omega
    rw [if_neg hij]
    simp only [basisFunction, genKnot_length, if_pos (show n + p + 1 ≤ i + 0 + 1 by omega)]
  · rw [basis0_unfold hpn hg]
    by_cases hij : i = suppIdx n p u
    · have hpi : p ≤ i := by omega
      have hin : i < n := by omega
      have hnd : kv n p i ≠ kv n p (i + 1) :=
        ne_of_lt (kv_strict hpn hpi (Nat.lt_succ_self i) (by omega))
      rw [if_neg (fun hc => hnd ((kv_close_iff hpn hgap).mp hc).symm), if_pos hij]
      rcases lt_or_eq_of_le hu1 with hu1' | hu1'
      · rw [if_pos ⟨by rw [hij]; exact kv_suppIdx_le hpn hu0,
          by rw [hij]; exact lt_kv_suppIdx_succ hpn hu0 hu1'⟩]
      · -- u = 1: the closed-right special case at the maximum knot fires
        have hieq : i = n - 1 := by
          have hs := suppIdx_at_one (n := n) (p := p) hpn
          rw [hu1'] at hij
          omega
        have hmax : kv n p (n + p) = 1 := kv_of_ge_n (by omega)
        have hi1 : kv n p (i + 1) = 1 := by
          rw [show i + 1 = n by omega]
          exact kv_of_ge_n le_rfl
        have hk1le : kv n p (i + 1) ≤ u := by rw [hu1', hi1]
        rw [if_neg (fun hc => absurd hc.2 (not_lt.mpr hk1le)),
          if_pos ⟨by rw [hu1', hmax, sub_self, abs_zero]; exact eps10_pos,
                  by rw [hi1, hmax, sub_self, abs_zero]; exact eps10_pos⟩,
          if_pos ⟨by rw [hu1']; exact kv_le_one hpn _, by rw [hu1', hi1]⟩]
    · rw [if_neg hij]
      by_cases hdeg : kv n p i = kv n p (i + 1)
      · rw [if_pos (by rw [hdeg, sub_self, abs_zero]; exact eps10_pos)]
      · rw [if_neg (fun hc => hdeg ((kv_close_iff hpn hgap).mp hc).symm)]
        have hpi : p ≤ i := by
          by_contra hc
          exact hdeg (by rw [kv_of_le_p hpn (by omega), kv_of_le_p hpn (by omega)])
        have hin : i + 1 ≤ n := by
          by_contra hc
          exact hdeg (by rw [kv_of_ge_n (by omega), kv_of_ge_n (by omega)])
        rcases lt_or_gt_of_ne hij with hlt | hgt
        · -- i left of the support index: u ≥ kv (i+1), and the special case
          -- cannot fire because kv (i+1) < 1
          have h1 : kv n p (i + 1) ≤ u :=
            le_trans (kv_mono hpn (by omega)) (kv_suppIdx_le hpn hu0)
          rw [if_neg (fun hc => absurd hc.2 (not_lt.mpr h1)), if_neg]
          rintro ⟨-, hc2⟩
          have he : kv n p (i + 1) = kv n p (n + p) := (kv_close_iff hpn hgap).mp hc2
          have h2 : kv n p (i + 1) = 1 := by rw [he, kv_of_ge_n (by omega)]
          have h3 : i + 1 = n := by
            by_contra hc
            have := kv_strict hpn (by omega) (show i + 1 < n by omega) le_rfl
            rw [h2, kv_of_ge_n le_rfl] at this
            exact lt_irrefl _ this
          omega
        · -- i right of the support index: u < kv i, so both membership tests fail
          have hu1' : u < 1 := by
            rcases lt_or_eq_of_le hu1 with h | h
            · exact h
            · exfalso
              rw [h, suppIdx_at_one hpn] at hgt
              omega
          have h2 : kv n p (suppIdx n p u + 1) ≤ kv n p i := kv_mono hpn (by omega)
          have hu_lt : u < kv n p i := lt_of_lt_of_le (lt_kv_suppIdx_succ hpn hu0 hu1') h2
          rw [if_neg (fun hc => absurd hc.1 (not_le.mpr hu_lt))]
          split_ifs with hc1 hc2
          · exact absurd hc2.1 (not_le.mpr hu_lt)
          · rfl
          · rfl

/-- Degree-`q + 1` body of `basis_function` over the generated knot vector,
with all knot reads replaced by `kv`. -/
lemma basisS_unfold {n p : ℕ} (hpn : p < n) {u : ℚ} {i q : ℕ}
    (hg : i + (q + 1) + 1 < n + p + 1) :
    basisFunction i (q + 1) u (genKnotVector n p true) =
      (if |kv n p (i + (q + 1)) - kv n p i| < eps10 then 0
       else (u - kv n p i) / (kv n p (i + (q + 1)) - kv n p i) *
         basisFunction i q u (genKnotVector n p true)) +
      (if |kv n p (i + (q + 1) + 1) - kv n p (i + 1)| < eps10 then 0
       else (kv n p (i + (q + 1) + 1) - u) / (kv n p (i + (q + 1) + 1) - kv n p (i + 1)) *
         basisFunction (i + 1) q u (genKnotVector n p true)) := by
  simp only [basisFunction, genKnot_length,
    if_neg (show ¬ (n + p + 1 ≤ i + (q + 1) + 1) by omega),
    genKnot_getD hpn (show i < n + p + 1 by omega),
    genKnot_getD hpn (show i + 1 < n + p + 1 by omega),
    genKnot_getD hpn (show i + (q + 1) < n + p + 1 by omega),
    genKnot_getD hpn (show i + (q + 1) + 1 < n + p + 1 by omega)]

/-- A `basis_function` value above the bounds guard is `0`. -/
lemma basis_guard {n p : ℕ} {u : ℚ} {i q : ℕ} (hg : n + p + 1 ≤ i + q + 1) :
    basisFunction i q u (genKnotVector n p true) = 0 := by
  cases q with
  | zero => simp only [basisFunction, genKnot_length, if_pos (by omega : n + p + 1 ≤ i + 0 + 1)]
  | succ q =>
    simp only [basisFunction, genKnot_length,
      if_pos (by omega : n + p + 1 ≤ i + (q + 1) + 1)]

/-- Restricted support: at `u ∈ [0, 1]` a nonzero degree-`q` basis value forces
its index into the window `[suppIdx - q, suppIdx]`. -/
lemma basis_suppBounds {n p : ℕ} (hpn : p < n) (hgap : n - p ≤ 10 ^ 10) {u : ℚ}
    (hu0 : 0 ≤ u) (hu1 : u ≤ 1) :
    ∀ q i, basisFunction i q u (genKnotVector n p true) ≠ 0 →
      i ≤ suppIdx n p u ∧ suppIdx n p u ≤ i + q := by
  intro q
  induction q with
  | zero =>
    intro i h
    rw [basis0 hpn hgap hu0 hu1 i] at h
    by_cases hc : i = suppIdx n p u
    · exact ⟨le_of_eq hc, by omega⟩
    · rw [if_neg hc] at h
      exact absurd rfl h
  | succ q ih =>
    intro i h
    by_cases hg : i + (q + 1) + 1 < n + p + 1
    swap
    · exact absurd (basis_guard (by omega)) h
    · rw [basisS_unfold hpn hg] at h
      have hor : basisFunction i q u (genKnotVector n p true) ≠ 0 ∨
          basisFunction (i + 1) q u (genKnotVector n p true) ≠ 0 := by
        by_contra hc
        push_neg at hc
        apply h
        rw [hc.1, hc.2, mul_zero, mul_zero]
        split_ifs <;> norm_num
      rcases hor with hb | hb
      · have := ih i hb
        omega
      · have := ih (i + 1) hb
        omega

/-- Local support (claim-facing direction): a degree-`q` basis function
vanishes at any `u` outside `[knots[i], knots[i + q + 1]]`. -/
lemma basis_out {n p : ℕ} (hpn : p < n) (hgap : n - p ≤ 10 ^ 10) (u : ℚ) :
    ∀ q i, (u < kv n p i ∨ kv n p (i + q + 1) < u) →
      basisFunction i q u (genKnotVector n p true) = 0 := by
  intro q
  induction q with
  | zero =>
    intro i hout
    by_cases hg : i + 1 < n + p + 1
    · rw [basis0_unfold hpn hg]
      rcases hout with h | h
      · split_ifs with h1 h2 h3 h4 <;> try rfl
        · exact absurd h2.1 (not_le.mpr h)
        · exact absurd h4.1 (not_le.mpr h)
      · split_ifs with h1 h2 h3 h4 <;> try rfl
        · exact absurd h2.2 (not_lt.mpr (le_of_lt h))
        · exact absurd h4.2 (not_le.mpr h)
    · exact basis_guard (by omega)
  | succ q ih =>
    intro i hout
    by_cases hg : i + (q + 1) + 1 < n + p + 1
    · rw [basisS_unfold hpn hg]
      have hL : basisFunction i q u (genKnotVector n p true) = 0 := by
        apply ih i
        rcases hout with h | h
        · exact Or.inl h
        · refine Or.inr (lt_of_le_of_lt (kv_mono hpn (by omega)) h)
      have hR : basisFunction (i + 1) q u (genKnotVector n p true) = 0 := by
        apply ih (i + 1)
        rcases hout with h | h
        · exact Or.inl (lt_of_lt_of_le h (kv_mono hpn (by omega)))
        · exact Or.inr (by rw [show i + 1 + q + 1 = i + (q + 1) + 1 by omega]; exact h)
      rw [hL, hR, mul_zero, mul_zero]
      split_ifs <;> norm_num
    · exact basis_guard (by omega)

/-- Non-negativity of every basis function over the generated knot vector. -/
lemma basis_nonneg {n p : ℕ} (hpn : p < n) (hgap : n - p ≤ 10 ^ 10) (u : ℚ) :
    ∀ q i, 0 ≤ basisFunction i q u (genKnotVector n p true) := by
  intro q
  induction q with
  | zero =>
    intro i
    by_cases hg : i + 1 < n + p + 1
    · rw [basis0_unfold hpn hg]
      split_ifs <;> norm_num
    · rw [basis_guard (by omega)]
  | succ q ih =>
    intro i
    by_cases hg : i + (q + 1) + 1 < n + p + 1
    · rw [basisS_unfold hpn hg]
      apply add_nonneg
      · split_ifs with hc
        · exact le_rfl
        · rcases lt_or_le u (kv n p i) with hlt | hle
          · rw [basis_out hpn hgap u q i (Or.inl hlt), mul_zero]
          · have hne : kv n p (i + (q + 1)) ≠ kv n p i :=
              fun he => hc (by rw [he, sub_self, abs_zero]; exact eps10_pos)
            have hdpos : 0 < kv n p (i + (q + 1)) - kv n p i :=
              lt_of_le_of_ne (by linarith [kv_mono hpn (show i ≤ i + (q + 1) by omega)])
                (by intro he; exact hne (by linarith))
            exact mul_nonneg (div_nonneg (by linarith) (le_of_lt hdpos)) (ih i)
      · split_ifs with hc
        · exact le_rfl
        · rcases lt_or_le (kv n p (i + (q + 1) + 1)) u with hlt | hle
          · rw [basis_out hpn hgap u q (i + 1)
              (Or.inr (by rw [show i + 1 + q + 1 = i + (q + 1) + 1 by omega]; exact hlt)),
              mul_zero]
          · have hne : kv n p (i + (q + 1) + 1) ≠ kv n p (i + 1) :=
              fun he => hc (by rw [he, sub_self, abs_zero]; exact eps10_pos)
            have hdpos : 0 < kv n p (i + (q + 1) + 1) - kv n p (i + 1) :=
              lt_of_le_of_ne
                (by linarith [kv_mono hpn (show i + 1 ≤ i + (q + 1) + 1 by omega)])
                (by intro he; exact hne (by linarith))
            exact mul_nonneg (div_nonneg (by linarith) (le_of_lt hdpos)) (ih (i + 1))
    · rw [basis_guard (by omega)]

/-- Telescoping step used by the partition-of-unity proof: when the two
boundary terms vanish and the paired coefficients sum to one wherever the
lower-degree basis value is nonzero, the recurrence preserves the total sum. -/
lemma telescope (M : ℕ) (hM : 1 ≤ M) (f g N : ℕ → ℚ)
    (h0 : N 0 = 0) (hM0 : N M = 0)
    (hmid : ∀ i, 1 ≤ i → i < M → (f i + g (i - 1)) * N i = N i) :
    (∑ i ∈ Finset.range M, (f i * N i + g i * N (i + 1))) =
      ∑ i ∈ Finset.range (M + 1), N i := by
  rw [Finset.sum_add_distrib]
  have hA : (∑ i ∈ Finset.range M, f i * N i) =
      ∑ i ∈ Finset.range (M + 1), (if i = M then 0 else f i * N i) := by
    rw [Finset.sum_range_succ, if_pos rfl, add_zero]
    exact Finset.sum_congr rfl fun i hi =>
      (if_neg (Nat.ne_of_lt (Finset.mem_range.mp hi))).symm
  have hB : (∑ i ∈ Finset.range M, g i * N (i + 1)) =
      ∑ i ∈ Finset.range (M + 1), (if i = 0 then 0 else g (i - 1) * N i) := by
    rw [Finset.sum_range_succ', if_pos rfl, add_zero]
    exact Finset.sum_congr rfl fun i hi => by
      rw [if_neg (Nat.succ_ne_zero i), Nat.add_sub_cancel]
  rw [hA, hB, ← Finset.sum_add_distrib]
  apply Finset.sum_congr rfl
  intro i hi
  have hiM1 : i < M + 1 := Finset.mem_range.mp hi
  by_cases h0i : i = 0
  · subst h0i
    rw [if_neg (by omega), if_pos rfl, h0, mul_zero, add_zero]
  · by_cases hMi : i = M
    · subst hMi
      rw [if_pos rfl, if_neg h0i, hM0, mul_zero, zero_add]
    · rw [if_neg hMi, if_neg h0i]
      calc f i * N i + g (i - 1) * N i = (f i + g (i - 1)) * N i := by ring
        _ = N i := hmid i (by omega) (by omega)

/-- Partition of unity at every degree `q ≤ p`: over the generated knot
vector and for `u ∈ [0, 1]`, the `n + p - q` degree-`q` basis functions sum
to exactly `1` (provided `p < n` and the knot spacing stays above the
source's `1e-10` degeneracy threshold). -/
lemma basis_sum {n p : ℕ} (hpn : p < n) (hgap : n - p ≤ 10 ^ 10) {u : ℚ}
    (hu0 : 0 ≤ u) (hu1 : u ≤ 1) :
    ∀ q, q ≤ p →
      ∑ i ∈ Finset.range (n + p - q), basisFunction i q u (genKnotVector n p true) = 1 := by
  intro q
  induction q with
  | zero =>
    intro _
    have hjn := suppIdx_lt_n hpn u
    calc ∑ i ∈ Finset.range (n + p - 0), basisFunction i 0 u (genKnotVector n p true)
        = ∑ i ∈ Finset.range (n + p - 0), if i = suppIdx n p u then (1 : ℚ) else 0 :=
          Finset.sum_congr rfl fun i _ => basis0 hpn hgap hu0 hu1 i
      _ = 1 := by
          rw [Finset.sum_ite_eq' (Finset.range (n + p - 0)) (suppIdx n p u) fun _ => (1 : ℚ),
            if_pos (Finset.mem_range.mpr (by omega))]
  | succ q ih =>
    intro hq1
    have hIH := ih (by omega)
    have hjp := suppIdx_ge n p u
    have hjn := suppIdx_lt_n hpn u
    have hjlt : kv n p (suppIdx n p u) < kv n p (suppIdx n p u + 1) :=
      kv_strict hpn hjp (Nat.lt_succ_self _) (by omega)
    have hM1 : (n + p - (q + 1)) + 1 = n + p - q := by omega
    have hMn : n ≤ n + p - (q + 1) := by omega
    calc ∑ i ∈ Finset.range (n + p - (q + 1)),
          basisFunction i (q + 1) u (genKnotVector n p true)
        = ∑ i ∈ Finset.range (n + p - (q + 1)),
            ((fun i => if |kv n p (i + (q + 1)) - kv n p i| < eps10 then 0
               else (u - kv n p i) / (kv n p (i + (q + 1)) - kv n p i)) i *
             (fun i => basisFunction i q u (genKnotVector n p true)) i +
             (fun i => if |kv n p (i + (q + 1) + 1) - kv n p (i + 1)| < eps10 then 0
               else (kv n p (i + (q + 1) + 1) - u) /
                 (kv n p (i + (q + 1) + 1) - kv n p (i + 1))) i *
             (fun i => basisFunction i q u (genKnotVector n p true)) (i + 1)) := by
          apply Finset.sum_congr rfl
          intro i hi
          have hiM := Finset.mem_range.mp hi
          rw [basisS_unfold hpn (by omega)]
          simp only []
          split_ifs <;> ring
      _ = ∑ i ∈ Finset.range ((n + p - (q + 1)) + 1),
            (fun i => basisFunction i q u (genKnotVector n p true)) i := by
          apply telescope (n + p - (q + 1)) (by omega)
          · -- left boundary: N₀ at degree q ≤ p - 1 vanishes on the clamped run
            by_contra hne
            obtain ⟨h1, h2⟩ := basis_suppBounds hpn hgap hu0 hu1 q 0 hne
            omega
          · -- right boundary: N at index n + p - (q + 1) vanishes
            by_contra hne
            obtain ⟨h1, h2⟩ := basis_suppBounds hpn hgap hu0 hu1 q (n + p - (q + 1)) hne
            omega
          · intro i hi1 hiM
            rw [show i - 1 + (q + 1) + 1 = i + (q + 1) from by omega,
              show i - 1 + 1 = i from by omega]
            by_cases hNi : basisFunction i q u (genKnotVector n p true) = 0
            · rw [hNi, mul_zero]
            · obtain ⟨hij, hji⟩ := basis_suppBounds hpn hgap hu0 hu1 q i hNi
              have hstrict : kv n p i < kv n p (i + (q + 1)) :=
                lt_of_le_of_lt (kv_mono hpn hij)
                  (lt_of_lt_of_le hjlt (kv_mono hpn (by omega)))
              have hcond : ¬ |kv n p (i + (q + 1)) - kv n p i| < eps10 := fun hc =>
                absurd ((kv_close_iff hpn hgap).mp hc) (ne_of_gt hstrict)
              rw [if_neg hcond, if_neg hcond]
              have hdne : kv n p (i + (q + 1)) - kv n p i ≠ 0 :=
                sub_ne_zero.mpr (ne_of_gt hstrict)
              field_simp
      _ = 1 := by
          rw [hM1]
          exact hIH

/-- C6 (amended): over the knot vector of `generate_knot_vector(n, p, true)`
with `p < n` and interior spacing `1/(n-p)` at least the `1e-10` degeneracy
threshold (`n - p ≤ 10^10`): the `n` degree-`p` basis functions sum to exactly
`1` for every `u ∈ [0, 1]` (hence within `1e-5`); every basis value is
non-negative; and `basis_function(i, p, u, knots)` is `0` for `u` outside
`[knots[i], knots[i+p+1]]`. -/
theorem bspline_basis_properties (n p : ℕ) (hpn : p < n) (hgap : n - p ≤ 10 ^ 10) :
    (∀ u : ℚ, 0 ≤ u → u ≤ 1 →
      ∑ i ∈ Finset.range n, basisFunction i p u (genKnotVector n p true) = 1) ∧
    (∀ (i : ℕ) (u : ℚ), 0 ≤ basisFunction i p u (genKnotVector n p true)) ∧
    (∀ (i : ℕ) (u : ℚ), i < n →
      (u < (genKnotVector n p true).getD i 0 ∨
        (genKnotVector n p true).getD (i + p + 1) 0 < u) →
      basisFunction i p u (genKnotVector n p true) = 0) := by
  refine ⟨?_, ?_, ?_⟩
  · intro u hu0 hu1
    have h := basis_sum hpn hgap hu0 hu1 p le_rfl
    rwa [show n + p - p = n by omega] at h
  · intro i u
    exact basis_nonneg hpn hgap u p i
  · intro i u hi hout
    apply basis_out hpn hgap u p i
    rwa [genKnot_getD hpn (by omega), genKnot_getD hpn (by omega)] at hout

/-- Witness for `bspline_basis_properties`: the repository's own test
configuration `n = 5`, `p = 3` at `u = 1/2`. -/
theorem bspline_basis_properties_witness :
    ∑ i ∈ Finset.range 5, basisFunction i 3 (1 / 2 : ℚ) (genKnotVector 5 3 true) = 1 :=
  (bspline_basis_properties 5 3 (by norm_num) (by norm_num)).1 (1 / 2)
    (by norm_num) (by norm_num)

/-- C6 counterexample: for `n = 1` control point and degree `p = 1` (so
`n ≤ p`), the knot vector is `[0, 1, 1]` and at `u = 1/2` the basis sum is
`1/2`, not `1` within `1e-5`: the claim's unrestricted quantification over
`n` and `p` fails. -/
theorem bspline_partition_fails_for_small_n :
    ¬ (|(∑ i ∈ Finset.range 1, basisFunction i 1 (1 / 2 : ℚ) (genKnotVector 1 1 true)) - 1| <
        1 / 10 ^ 5) := by
  have hK : genKnotVector 1 1 true = [0, 1, 1] := by
    norm_num [genKnotVector, List.range_succ]
  rw [Finset.sum_range_one, hK]
  norm_num [basisFunction, eps10, abs_lt]

/-! ## 3D vectors over `ℝ` (glam `Vec2` / `Vec3`, re-exported by
`floraison-core`)

The geometry of `curves.rs` and the pattern generators works on glam `f32`
vectors; the embedding uses real scalars.  `normalize_or` / `normalize_or_zero`
follow glam: the fallback is used exactly when the length is not positive. -/

/-- glam `Vec2` over `ℝ`. -/
structure Vec2 where
  x : ℝ
  y : ℝ

/-- glam `Vec3` over `ℝ`. -/
structure Vec3 where
  x : ℝ
  y : ℝ
  z : ℝ

namespace Vec3

instance : Add Vec3 := ⟨fun a b => ⟨a.x + b.x, a.y + b.y, a.z + b.z⟩⟩
instance : Sub Vec3 := ⟨fun a b => ⟨a.x - b.x, a.y - b.y, a.z - b.z⟩⟩
instance : Neg Vec3 := ⟨fun a => ⟨-a.x, -a.y, -a.z⟩⟩
instance : Zero Vec3 := ⟨⟨0, 0, 0⟩⟩

/-- Scalar multiple (glam `Vec3 * f32`). -/
def smul (r : ℝ) (a : Vec3) : Vec3 := ⟨r * a.x, r * a.y, r * a.z⟩

/-- Dot product. -/
def dot (a b : Vec3) : ℝ := a.x * b.x + a.y * b.y + a.z * b.z

/-- Cross product. -/
def cross (a b : Vec3) : Vec3 :=
  ⟨a.y * b.z - a.z * b.y, a.z * b.x - a.x * b.z, a.x * b.y - a.y * b.x⟩

/-- Squared length. -/
def normSq (a : Vec3) : ℝ := dot a a

/-- glam `length`. -/
noncomputable def length (a : Vec3) : ℝ := Real.sqrt (normSq a)

/-- glam `normalize`: `self * (1 / length)`. -/
noncomputable def normalize (a : Vec3) : Vec3 := smul (1 / length a) a

/-- glam `normalize_or`: the normalized vector when the length is positive
(and finite), otherwise the fallback. -/
noncomputable def normalizeOr (a fb : Vec3) : Vec3 :=
  if 0 < length a then smul (1 / length a) a else fb

/-- glam `normalize_or_zero`. -/
noncomputable def normalizeOrZero (a : Vec3) : Vec3 := normalizeOr a 0

/-- glam `lerp`: `a + (b - a) * t`. -/
def lerp (a b : Vec3) (t : ℝ) : Vec3 := a + smul t (b - a)

/-- glam `Vec3::X`. -/
def xHat : Vec3 := ⟨1, 0, 0⟩

/-- glam `Vec3::Y`. -/
def yHat : Vec3 := ⟨0, 1, 0⟩

@[simp] lemma add_x (a b : Vec3) : (a + b).x = a.x + b.x := rfl
@[simp] lemma add_y (a b : Vec3) : (a + b).y = a.y + b.y := rfl
@[simp] lemma add_z (a b : Vec3) : (a + b).z = a.z + b.z := rfl
@[simp] lemma sub_x (a b : Vec3) : (a - b).x = a.x - b.x := rfl
@[simp] lemma sub_y (a b : Vec3) : (a - b).y = a.y - b.y := rfl
@[simp] lemma sub_z (a b : Vec3) : (a - b).z = a.z - b.z := rfl
@[simp] lemma smul_x (r : ℝ) (a : Vec3) : (smul r a).x = r * a.x := rfl
@[simp] lemma smul_y (r : ℝ) (a : Vec3) : (smul r a).y = r * a.y := rfl
@[simp] lemma smul_z (r : ℝ) (a : Vec3) : (smul r a).z = r * a.z := rfl
@[simp] lemma cross_x (a b : Vec3) : (cross a b).x = a.y * b.z - a.z * b.y := rfl
@[simp] lemma cross_y (a b : Vec3) : (cross a b).y = a.z * b.x - a.x * b.z := rfl
@[simp] lemma cross_z (a b : Vec3) : (cross a b).z = a.x * b.y - a.y * b.x := rfl
@[simp] lemma zero_x : (0 : Vec3).x = 0 := rfl
@[simp] lemma zero_y : (0 : Vec3).y = 0 := rfl
@[simp] lemma zero_z : (0 : Vec3).z = 0 := rfl

@[ext] lemma ext {a b : Vec3} (hx : a.x = b.x) (hy : a.y = b.y) (hz : a.z = b.z) :
    a = b := by
  cases a
  cases b
  simp_all

lemma normSq_eq (a : Vec3) : normSq a = a.x ^ 2 + a.y ^ 2 + a.z ^ 2 := by
  unfold normSq dot
  ring

lemma normSq_nonneg (a : Vec3) : 0 ≤ normSq a := by
  rw [normSq_eq]
  positivity

lemma length_nonneg (a : Vec3) : 0 ≤ length a := Real.sqrt_nonneg _

lemma length_sq (a : Vec3) : length a ^ 2 = normSq a := Real.sq_sqrt (normSq_nonneg a)

lemma length_eq_one_iff {a : Vec3} : length a = 1 ↔ normSq a = 1 := by
  rw [length, Real.sqrt_eq_one]

lemma length_pos_iff {a : Vec3} : 0 < length a ↔ 0 < normSq a := by
  rw [length, Real.sqrt_pos]

lemma normSq_smul (r : ℝ) (a : Vec3) : normSq (smul r a) = r ^ 2 * normSq a := by
  simp only [normSq, dot, smul_x, smul_y, smul_z]
  ring

/-- Normalizing a vector of positive squared length yields a unit vector. -/
lemma normSq_normalize {a : Vec3} (h : 0 < normSq a) : normSq (normalize a) = 1 := by
  have hl : 0 < length a := length_pos_iff.mpr h
  rw [normalize, normSq_smul, div_pow, one_pow, length_sq]
  field_simp

lemma normSq_normalizeOr {a fb : Vec3} (hfb : normSq fb = 1) :
    normSq (normalizeOr a fb) = 1 := by
  unfold normalizeOr
  split_ifs with h
  · have := normSq_normalize (a := a) (by rw [← length_sq]; positivity)
    rwa [normalize] at this
  · exact hfb

lemma dot_comm (a b : Vec3) : dot a b = dot b a := by
  unfold dot
  ring

lemma dot_cross_left (a b : Vec3) : dot (cross a b) a = 0 := by
  simp only [dot, cross_x, cross_y, cross_z]
  ring

lemma dot_cross_right (a b : Vec3) : dot (cross a b) b = 0 := by
  simp only [dot, cross_x, cross_y, cross_z]
  ring

/-- Lagrange identity. -/
lemma normSq_cross (a b : Vec3) :
    normSq (cross a b) = normSq a * normSq b - dot a b ^ 2 := by
  simp only [normSq, dot, cross_x, cross_y, cross_z]
  ring

/-- Vector triple product: `a × (b × c) = (a·c) b − (a·b) c`. -/
lemma cross_cross (a b c : Vec3) :
    cross a (cross b c) = smul (dot a c) b - smul (dot a b) c := by
  apply Vec3.ext <;> simp [cross, dot, smul] <;> ring

/-- Normalizing a vector whose squared length is `1` leaves it unchanged. -/
lemma normalize_of_normSq_one {a : Vec3} (h : normSq a = 1) : normalize a = a := by
  have hl : length a = 1 := length_eq_one_iff.mpr h
  rw [normalize, hl]
  cases a
  simp [smul]

lemma normalizeOrZero_of_normSq_one {a : Vec3} (h : normSq a = 1) :
    normalizeOrZero a = a := by
  rw [normalizeOrZero, normalizeOr, if_pos (by rw [length_eq_one_iff.mpr h]; norm_num),
    ← normalize, normalize_of_normSq_one h]

lemma normalizeOr_pos {a fb : Vec3} (h : 0 < normSq a) : normalizeOr a fb = normalize a := by
  rw [normalizeOr, if_pos (length_pos_iff.mpr h)]
  rfl

lemma normalizeOr_of_normSq_one {a fb : Vec3} (h : normSq a = 1) : normalizeOr a fb = a := by
  rw [normalizeOr_pos (by rw [h]; norm_num), normalize_of_normSq_one h]

lemma dot_smul_left (r : ℝ) (a b : Vec3) : dot (smul r a) b = r * dot a b := by
  simp only [dot, smul_x, smul_y, smul_z]
  ring

lemma dot_normalize_left (a b : Vec3) : dot (normalize a) b = 1 / length a * dot a b := by
  rw [normalize, dot_smul_left]

@[simp] lemma smul_one_eq (a : Vec3) : smul 1 a = a := by
  apply Vec3.ext <;> simp [smul]

@[simp] lemma smul_zero_eq (a : Vec3) : smul 0 a = 0 := by
  apply Vec3.ext <;> simp [smul]

@[simp] lemma sub_zero_eq (a : Vec3) : a - 0 = a := by
  apply Vec3.ext <;> simp

lemma normSq_yHat : normSq yHat = 1 := by norm_num [normSq_eq, yHat]

lemma normSq_xHat : normSq xHat = 1 := by norm_num [normSq_eq, xHat]

end Vec3

/-! ## Axis curve with Frenet-style frame, from
`floraison-core/src/math/curves.rs` (`AxisCurve`, `AxisSample`)

`AxisCurve::new` asserts at least 2 points; the embedding carries the point
list and states that precondition as a hypothesis where a claim needs it. -/

/-- `AxisSample`: position plus tangent/normal/binormal. -/
structure AxisSample where
  position : Vec3
  tangent : Vec3
  normal : Vec3
  binormal : Vec3

/-- Accumulator loop of `compute_arc_lengths`. -/
noncomputable def arcAux (prev : Vec3) (acc : ℝ) : List Vec3 → List ℝ
  | [] => []
  | q :: rest => (acc + Vec3.length (q - prev)) :: arcAux q (acc + Vec3.length (q - prev)) rest

/-- `compute_arc_lengths(points)`: starts at `0.0`, then accumulates
consecutive segment lengths. -/
noncomputable def computeArcLengths : List Vec3 → List ℝ
  | [] => [0]
  | p :: rest => 0 :: arcAux p 0 rest

/-- `AxisCurve::total_length`: the last entry of the arc-length table. -/
noncomputable def totalLength (pts : List Vec3) : ℝ :=
  (computeArcLengths pts).getLast?.getD 0

/-- The `while idx < n - 1 && arc_lengths[idx + 1] < target` scan of
`sample_at_arc_length`, with `fuel = (n - 1) - idx` making termination
explicit. -/
noncomputable def findSegAux (arc : List ℝ) (target : ℝ) : ℕ → ℕ → ℕ
  | 0, idx => idx
  | fuel + 1, idx => if arc.getD (idx + 1) 0 < target then findSegAux arc target fuel (idx + 1) else idx

/-- `AxisCurve::tangent_at_index`: normalized finite difference (central in
the interior, one-sided at the ends), with `Vec3::Y` fallback. -/
noncomputable def tangentAtIndex (pts : List Vec3) (idx : ℕ) : Vec3 :=
  let n := pts.length
  if n < 2 then Vec3.yHat
  else if 0 < idx ∧ idx < n - 1 then
    Vec3.normalizeOr (pts.getD (idx + 1) 0 - pts.getD (idx - 1) 0) Vec3.yHat
  else if idx = 0 then Vec3.normalizeOr (pts.getD 1 0 - pts.getD 0 0) Vec3.yHat
  else Vec3.normalizeOr (pts.getD (n - 1) 0 - pts.getD (n - 2) 0) Vec3.yHat

/-- `AxisCurve::arbitrary_perpendicular`: project a fixed candidate axis
(`Y` unless the vector is nearly vertical, else `X`) orthogonally to `v`. -/
noncomputable def arbitraryPerpendicular (v : Vec3) : Vec3 :=
  let candidate := if |v.y| < 9 / 10 then Vec3.yHat else Vec3.xHat
  let parallel := Vec3.smul (Vec3.dot candidate v) v
  Vec3.normalizeOr (candidate - parallel) Vec3.xHat

/-- `AxisCurve::normal_at_index`: curvature direction from the discrete
second derivative, projected orthogonally to the tangent, with the
arbitrary-perpendicular fallback for straight sections or short curves. -/
noncomputable def normalAtIndex (pts : List Vec3) (idx : ℕ) (tangent : Vec3) : Vec3 :=
  let n := pts.length
  if n < 3 then arbitraryPerpendicular tangent
  else
    let d2p :=
      if 0 < idx ∧ idx < n - 1 then
        pts.getD (idx + 1) 0 - Vec3.smul 2 (pts.getD idx 0) + pts.getD (idx - 1) 0
      else if idx = 0 ∧ 3 ≤ n then
        pts.getD 2 0 - Vec3.smul 2 (pts.getD 1 0) + pts.getD 0 0
      else if idx = n - 1 ∧ 3 ≤ n then
        pts.getD (n - 1) 0 - Vec3.smul 2 (pts.getD (n - 2) 0) + pts.getD (n - 3) 0
      else 0
    let tangentComponent := Vec3.smul (Vec3.dot d2p tangent) tangent
    let normal0 := d2p - tangentComponent
    let normal1 := if Vec3.length normal0 < 1 / 10 ^ 4 then arbitraryPerpendicular tangent
      else normal0
    Vec3.normalizeOr normal1 Vec3.xHat

/-- Segment search of `sample_at_arc_length`: the scan result, clamped to
`n - 2` when it reached `n - 1`. -/
noncomputable def segIdx (pts : List Vec3) (targetLength : ℝ) : ℕ :=
  let idx0 := findSegAux (computeArcLengths pts) targetLength (pts.length - 1) 0
  if pts.length - 1 ≤ idx0 then pts.length - 2 else idx0

/-- Interpolated position of `sample_at_arc_length` within the found
segment. -/
noncomputable def samplePosition (pts : List Vec3) (targetLength : ℝ) : Vec3 :=
  let idx := segIdx pts targetLength
  let arc := computeArcLengths pts
  let segStart := arc.getD idx 0
  let segLen := arc.getD (idx + 1) 0 - segStart
  let localT := if 1 / 10 ^ 6 < segLen then (targetLength - segStart) / segLen else 0
  Vec3.lerp (pts.getD idx 0) (pts.getD (idx + 1) 0) localT

/-- Frame part of `sample_at_arc_length` at a segment index: normalized
tangent, normal from `normal_at_index`, binormal = tangent × normal, and the
re-orthogonalized normal = binormal × tangent. -/
noncomputable def sampleTangent (pts : List Vec3) (idx : ℕ) : Vec3 :=
  Vec3.normalizeOrZero (tangentAtIndex pts idx)

noncomputable def sampleNormal0 (pts : List Vec3) (idx : ℕ) : Vec3 :=
  Vec3.normalizeOrZero (normalAtIndex pts idx (sampleTangent pts idx))

noncomputable def sampleBinormal (pts : List Vec3) (idx : ℕ) : Vec3 :=
  Vec3.normalizeOrZero (Vec3.cross (sampleTangent pts idx) (sampleNormal0 pts idx))

noncomputable def sampleNormal (pts : List Vec3) (idx : ℕ) : Vec3 :=
  Vec3.normalizeOrZero (Vec3.cross (sampleBinormal pts idx) (sampleTangent pts idx))

/-- `AxisCurve::sample_at_arc_length`. -/
noncomputable def sampleAtArcLength (pts : List Vec3) (targetLength : ℝ) : AxisSample :=
  ⟨samplePosition pts targetLength,
   sampleTangent pts (segIdx pts targetLength),
   sampleNormal pts (segIdx pts targetLength),
   sampleBinormal pts (segIdx pts targetLength)⟩

/-- `AxisCurve::sample_at_t`: clamp `t` to `[0, 1]`, convert to an arc
length, and sample there. -/
noncomputable def sampleAtT (pts : List Vec3) (t : ℝ) : AxisSample :=
  sampleAtArcLength pts (min (max t 0) 1 * totalLength pts)

/-! ### The frame produced by `sample_at_arc_length` is orthonormal -/

open Vec3 in
/-- `arbitrary_perpendicular` of a unit vector is a unit vector exactly
orthogonal to it (the candidate axis is never near-parallel thanks to the
`|v.y| < 0.9` choice). -/
lemma arbitraryPerpendicular_spec {v : Vec3} (hv : Vec3.normSq v = 1) :
    Vec3.normSq (arbitraryPerpendicular v) = 1 ∧
    Vec3.dot (arbitraryPerpendicular v) v = 0 := by
  have hveq := normSq_eq v
  rw [hv] at hveq
  unfold arbitraryPerpendicular
  set c := if |v.y| < 9 / 10 then yHat else xHat with hc
  set d := dot c v with hd
  have hcsq : normSq c = 1 := by
    rw [hc]
    split_ifs
    · exact normSq_yHat
    · exact normSq_xHat
  have hperp : normSq (c - smul d v) = 1 - d ^ 2 := by
    have hexp : normSq (c - smul d v) = normSq c - 2 * d * dot c v + d ^ 2 * normSq v := by
      simp only [normSq, dot, sub_x, sub_y, sub_z, smul_x, smul_y, smul_z]
      ring
    rw [hexp, hcsq, hv, ← hd]
    ring
  have hdotp : dot (c - smul d v) v = 0 := by
    have hexp : dot (c - smul d v) v = dot c v - d * normSq v := by
      simp only [normSq, dot, sub_x, sub_y, sub_z, smul_x, smul_y, smul_z]
      ring
    rw [hexp, hv, ← hd]
    ring
  have hlt : d ^ 2 < 1 := by
    rw [hd, hc]
    split_ifs with hy
    · have hcy : dot yHat v = v.y := by simp [dot, yHat]
      rw [hcy]
      have h := abs_lt.mp hy
      nlinarith [h.1, h.2]
    · have hcx : dot xHat v = v.x := by simp [dot, xHat]
      rw [hcx]
      have hy' : 9 / 10 ≤ |v.y| := not_lt.mp hy
      have h1 : (9 / 10 : ℝ) ^ 2 ≤ v.y ^ 2 := by
        calc (9 / 10 : ℝ) ^ 2 ≤ |v.y| ^ 2 := by nlinarith [abs_nonneg v.y]
          _ = v.y ^ 2 := sq_abs v.y
      nlinarith [sq_nonneg v.z]
  have hpos : 0 < normSq (c - smul d v) := by
    rw [hperp]
    nlinarith
  rw [normalizeOr_pos hpos]
  exact ⟨normSq_normalize hpos, by rw [dot_normalize_left, hdotp, mul_zero]⟩

open Vec3 in
/-- `tangent_at_index` always returns a unit vector (every branch either
normalizes a nonzero difference or falls back to `Vec3::Y`). -/
lemma tangentAtIndex_normSq (pts : List Vec3) (idx : ℕ) :
    Vec3.normSq (tangentAtIndex pts idx) = 1 := by
  simp only [tangentAtIndex]
  split_ifs
  · exact normSq_yHat
  · exact normSq_normalizeOr normSq_yHat
  · exact normSq_normalizeOr normSq_yHat
  · exact normSq_normalizeOr normSq_yHat

open Vec3 in
/-- Normalizing any positively-sized vector orthogonal to `t` gives a unit
vector orthogonal to `t`. -/
lemma normalizeOr_perp_unit {w t fb : Vec3} (hw : 0 < Vec3.normSq w)
    (hdot : Vec3.dot w t = 0) :
    Vec3.normSq (Vec3.normalizeOr w fb) = 1 ∧ Vec3.dot (Vec3.normalizeOr w fb) t = 0 := by
  rw [normalizeOr_pos hw]
  exact ⟨normSq_normalize hw, by rw [dot_normalize_left, hdot, mul_zero]⟩

open Vec3 in
/-- `normal_at_index` of a unit tangent is a unit vector exactly orthogonal
to the tangent, in every branch (curvature projection, straight-section
fallback, or short-curve fallback). -/
lemma normalAtIndex_spec (pts : List Vec3) (idx : ℕ) {t : Vec3}
    (ht : Vec3.normSq t = 1) :
    Vec3.normSq (normalAtIndex pts idx t) = 1 ∧
    Vec3.dot (normalAtIndex pts idx t) t = 0 := by
  simp only [normalAtIndex]
  by_cases h3 : pts.length < 3
  · rw [if_pos h3]
    exact arbitraryPerpendicular_spec ht
  · rw [if_neg h3]
    generalize (if 0 < idx ∧ idx < pts.length - 1 then
        pts.getD (idx + 1) 0 - Vec3.smul 2 (pts.getD idx 0) + pts.getD (idx - 1) 0
      else if idx = 0 ∧ 3 ≤ pts.length then
        pts.getD 2 0 - Vec3.smul 2 (pts.getD 1 0) + pts.getD 0 0
      else if idx = pts.length - 1 ∧ 3 ≤ pts.length then
        pts.getD (pts.length - 1) 0 - Vec3.smul 2 (pts.getD (pts.length - 2) 0) +
          pts.getD (pts.length - 3) 0
      else 0) = d2p
    have hproj : dot (d2p - smul (dot d2p t) t) t = 0 := by
      have hexp : dot (d2p - smul (dot d2p t) t) t = dot d2p t - dot d2p t * normSq t := by
        simp only [normSq, dot, sub_x, sub_y, sub_z, smul_x, smul_y, smul_z]
        ring
      rw [hexp, ht]
      ring
    split_ifs with hlen
    · obtain ⟨h1, h2⟩ := arbitraryPerpendicular_spec ht
      exact normalizeOr_perp_unit (by rw [h1]; norm_num) h2
    · have hpos : 0 < normSq (d2p - smul (dot d2p t) t) := by
        rw [← length_sq]
        have hl0 : (0 : ℝ) ≤ Vec3.length (d2p - smul (dot d2p t) t) := length_nonneg _
        have : 1 / 10 ^ 4 ≤ Vec3.length (d2p - smul (dot d2p t) t) := not_lt.mp hlen
        nlinarith
      exact normalizeOr_perp_unit hpos hproj

open Vec3 in
/-- The four frame fields produced at a segment index: tangent, the
pre-orthogonalization normal, the binormal, and the final normal are unit
and mutually orthogonal exactly, with `binormal = tangent × normal₀` and
`normal = binormal × tangent` by construction. -/
lemma frame_spec (pts : List Vec3) (idx : ℕ) :
    Vec3.normSq (sampleTangent pts idx) = 1 ∧
    sampleBinormal pts idx = Vec3.cross (sampleTangent pts idx) (sampleNormal0 pts idx) ∧
    Vec3.normSq (sampleBinormal pts idx) = 1 ∧
    sampleNormal pts idx = Vec3.cross (sampleBinormal pts idx) (sampleTangent pts idx) ∧
    Vec3.normSq (sampleNormal pts idx) = 1 := by
  have htu := tangentAtIndex_normSq pts idx
  have hteq : sampleTangent pts idx = tangentAtIndex pts idx :=
    normalizeOrZero_of_normSq_one htu
  have ht : normSq (sampleTangent pts idx) = 1 := by rw [hteq]; exact htu
  obtain ⟨hn0u, hn0d⟩ := normalAtIndex_spec pts idx ht
  have hn0eq : sampleNormal0 pts idx = normalAtIndex pts idx (sampleTangent pts idx) :=
    normalizeOrZero_of_normSq_one hn0u
  have hn0 : normSq (sampleNormal0 pts idx) = 1 := by rw [hn0eq]; exact hn0u
  have hn0dot : dot (sampleNormal0 pts idx) (sampleTangent pts idx) = 0 := by
    rw [hn0eq]
    exact hn0d
  have hbsq : normSq (cross (sampleTangent pts idx) (sampleNormal0 pts idx)) = 1 := by
    rw [normSq_cross, ht, hn0, dot_comm, hn0dot]
    ring
  have hbeq : sampleBinormal pts idx =
      cross (sampleTangent pts idx) (sampleNormal0 pts idx) := by
    rw [sampleBinormal, normalizeOrZero_of_normSq_one hbsq]
  have hb : normSq (sampleBinormal pts idx) = 1 := by rw [hbeq]; exact hbsq
  have hbt : dot (sampleBinormal pts idx) (sampleTangent pts idx) = 0 := by
    rw [hbeq]
    exact dot_cross_left _ _
  have hnsq : normSq (cross (sampleBinormal pts idx) (sampleTangent pts idx)) = 1 := by
    rw [normSq_cross, hb, ht, hbt]
    ring
  have hneq : sampleNormal pts idx =
      cross (sampleBinormal pts idx) (sampleTangent pts idx) := by
    rw [sampleNormal, normalizeOrZero_of_normSq_one hnsq]
  exact ⟨ht, hbeq, hb, hneq, by rw [hneq]; exact hnsq⟩

/-- C7: for every axis curve built from at least 2 points and every
parameter `t`, `sample_at_t` returns tangent, normal, and binormal vectors
that are each unit length and mutually orthogonal, with
`binormal = tangent × normal` and the returned normal recomputed as
`binormal × tangent`. -/
theorem axis_frame_orthonormal (pts : List Vec3) (h2 : 2 ≤ pts.length) (t : ℝ) :
    Vec3.length (sampleAtT pts t).tangent = 1 ∧
    Vec3.length (sampleAtT pts t).normal = 1 ∧
    Vec3.length (sampleAtT pts t).binormal = 1 ∧
    Vec3.dot (sampleAtT pts t).tangent (sampleAtT pts t).normal = 0 ∧
    Vec3.dot (sampleAtT pts t).tangent (sampleAtT pts t).binormal = 0 ∧
    Vec3.dot (sampleAtT pts t).normal (sampleAtT pts t).binormal = 0 ∧
    (sampleAtT pts t).binormal =
      Vec3.cross (sampleAtT pts t).tangent (sampleAtT pts t).normal ∧
    (sampleAtT pts t).normal =
      Vec3.cross (sampleAtT pts t).binormal (sampleAtT pts t).tangent := by
  obtain ⟨ht, hbeq, hb, hneq, hn⟩ :=
    frame_spec pts (segIdx pts (min (max t 0) 1 * totalLength pts))
  have htan : (sampleAtT pts t).tangent =
      sampleTangent pts (segIdx pts (min (max t 0) 1 * totalLength pts)) := rfl
  have hnor : (sampleAtT pts t).normal =
      sampleNormal pts (segIdx pts (min (max t 0) 1 * totalLength pts)) := rfl
  have hbin : (sampleAtT pts t).binormal =
      sampleBinormal pts (segIdx pts (min (max t 0) 1 * totalLength pts)) := rfl
  rw [htan, hnor, hbin]
  have hdot_bt : Vec3.dot
      (sampleBinormal pts (segIdx pts (min (max t 0) 1 * totalLength pts)))
      (sampleTangent pts (segIdx pts (min (max t 0) 1 * totalLength pts))) = 0 := by
    rw [hbeq]
    exact Vec3.dot_cross_left _ _
  refine ⟨Vec3.length_eq_one_iff.mpr ht, Vec3.length_eq_one_iff.mpr hn,
    Vec3.length_eq_one_iff.mpr hb, ?_, ?_, ?_, ?_, hneq⟩
  · rw [hneq, Vec3.dot_comm]
    exact Vec3.dot_cross_right _ _
  · rw [hbeq, Vec3.dot_comm]
    exact Vec3.dot_cross_left _ _
  · rw [hneq]
    exact Vec3.dot_cross_left _ _
  · rw [hneq, Vec3.cross_cross]
    have h1 : Vec3.dot (sampleTangent pts (segIdx pts (min (max t 0) 1 * totalLength pts)))
        (sampleTangent pts (segIdx pts (min (max t 0) 1 * totalLength pts))) = 1 := ht
    have h2' : Vec3.dot (sampleTangent pts (segIdx pts (min (max t 0) 1 * totalLength pts)))
        (sampleBinormal pts (segIdx pts (min (max t 0) 1 * totalLength pts))) = 0 := by
      rw [Vec3.dot_comm]
      exact hdot_bt
    rw [h1, h2', Vec3.smul_one_eq, Vec3.smul_zero_eq, Vec3.sub_zero_eq]

/-- Witness for `axis_frame_orthonormal`: the vertical two-point axis at
`t = 1/2`. -/
theorem axis_frame_orthonormal_witness :
    2 ≤ ([⟨0, 0, 0⟩, ⟨0, 1, 0⟩] : List Vec3).length ∧
    Vec3.length (sampleAtT [⟨0, 0, 0⟩, ⟨0, 1, 0⟩] (1 / 2)).tangent = 1 :=
  ⟨by norm_num, (axis_frame_orthonormal [⟨0, 0, 0⟩, ⟨0, 1, 0⟩] (by norm_num) (1 / 2)).1⟩

/-! ## Inflorescence layer, from `floraison-inflorescence/src/lib.rs` and
`floraison-inflorescence/src/patterns/*.rs` -/

/-- `PatternType`. -/
inductive PatternType where
  | raceme
  | spike
  | umbel
  | corymb
  | dichasium
  | drepanium
  | compoundRaceme
  | compoundUmbel

/-- `InflorescenceParams`. -/
structure InflorescenceParams where
  pattern : PatternType
  axisLength : ℝ
  branchCount : ℕ
  angleTop : ℝ
  angleBottom : ℝ
  branchLengthTop : ℝ
  branchLengthBottom : ℝ
  rotationAngle : ℝ
  flowerSizeTop : ℝ
  flowerSizeBottom : ℝ
  recursionDepth : Option ℕ
  branchRatio : Option ℝ
  angleDivergence : Option ℝ
  ageDistribution : ℝ

/-- `InflorescenceParams::default()`. -/
noncomputable def defaultParams : InflorescenceParams :=
  ⟨PatternType.raceme, 10, 12, 45, 60, 1 / 2, 3 / 2, 137.5, 8 / 10, 1,
    none, none, none, 1 / 2⟩

/-- `BranchPoint`. -/
structure BranchPoint where
  position : Vec3
  direction : Vec3
  length : ℝ
  flowerScale : ℝ
  age : ℝ

/-- `apply_age_distribution(base_age, distribution)` from `lib.rs`. -/
noncomputable def applyAgeDistribution (baseAge distribution : ℝ) : ℝ :=
  if distribution < 1 / 2 then
    let t := distribution * 2
    0.15 * (1 - t) + baseAge * t
  else
    let t := (distribution - 1 / 2) * 2
    baseAge * (1 - t) + 0.55 * t

/-- `f32::to_radians`. -/
noncomputable def toRadians (x : ℝ) : ℝ := x * (Real.pi / 180)

/-- The per-pattern scalar `lerp(a, b, t) = a + (b - a) * t`. -/
def lerpR (a b t : ℝ) : ℝ := a + (b - a) * t

/-- Action of `Quat::from_axis_angle(axis, θ)` on a vector (Rodrigues
rotation; glam requires the axis to be normalized, as every caller here
provides). -/
noncomputable def rotateAxisAngle (axis : Vec3) (θ : ℝ) (v : Vec3) : Vec3 :=
  Vec3.smul (Real.cos θ) v + Vec3.smul (Real.sin θ) (Vec3.cross axis v) +
    Vec3.smul (Vec3.dot axis v * (1 - Real.cos θ)) axis

/-- Rotation about a unit axis preserves the squared length. -/
lemma normSq_rotate {axis : Vec3} (hax : Vec3.normSq axis = 1) (θ : ℝ) (v : Vec3) :
    Vec3.normSq (rotateAxisAngle axis θ v) = Vec3.normSq v := by
  have hk : axis.x ^ 2 + axis.y ^ 2 + axis.z ^ 2 = 1 := by
    rw [← Vec3.normSq_eq]
    exact hax
  have hs := Real.sin_sq_add_cos_sq θ
  simp only [rotateAxisAngle, Vec3.normSq, Vec3.dot, Vec3.cross_x, Vec3.cross_y, Vec3.cross_z,
    Vec3.add_x, Vec3.add_y, Vec3.add_z, Vec3.smul_x, Vec3.smul_y, Vec3.smul_z]
  linear_combination
    (Real.sin θ ^ 2 * (v.x ^ 2 + v.y ^ 2 + v.z ^ 2) +
      (axis.x * v.x + axis.y * v.y + axis.z * v.z) ^ 2 * (1 - Real.cos θ) ^ 2) * hk +
    ((v.x ^ 2 + v.y ^ 2 + v.z ^ 2) -
      (axis.x * v.x + axis.y * v.y + axis.z * v.z) ^ 2) * hs

/-- Normalized position along the axis in the linear patterns:
`t = i / (branch_count - 1)`, or `0.5` for a single flower. -/
noncomputable def linearT (count i : ℕ) : ℝ :=
  if 1 < count then (i : ℝ) / ((count - 1 : ℕ) : ℝ) else 1 / 2

/-- The tilt-then-spin branch direction shared verbatim by raceme, spike,
umbel, and corymb: rotate the axis normal by `-angle` around the binormal,
then by `rotation` around the tangent, then normalize. -/
noncomputable def branchDirection (sample : AxisSample) (angle rotation : ℝ) : Vec3 :=
  Vec3.normalize
    (rotateAxisAngle sample.tangent (toRadians rotation)
      (rotateAxisAngle sample.binormal (-(toRadians angle)) sample.normal))

/-- `raceme::generate_branch_points`, one loop iteration. -/
noncomputable def racemeBranch (P : InflorescenceParams) (pts : List Vec3) (i : ℕ) :
    BranchPoint :=
  let t := linearT P.branchCount i
  let sample := sampleAtT pts t
  let angle := lerpR P.angleBottom P.angleTop t
  let length := lerpR P.branchLengthBottom P.branchLengthTop t
  let flowerScale := lerpR P.flowerSizeBottom P.flowerSizeTop t
  let rotation := P.rotationAngle * i
  let direction := branchDirection sample angle rotation
  let position := sample.position + Vec3.smul length direction
  let baseAge := 1 - t
  let age := applyAgeDistribution baseAge P.ageDistribution
  ⟨position, direction, length, flowerScale, age⟩

/-- `raceme::generate_branch_points`. -/
noncomputable def racemeGenerate (P : InflorescenceParams) (pts : List Vec3) :
    List BranchPoint :=
  (List.range P.branchCount).map (racemeBranch P pts)

/-- `spike::generate_branch_points`, one loop iteration: sessile (`length`
forced to `0`, position on the axis), same orientation computation. -/
noncomputable def spikeBranch (P : InflorescenceParams) (pts : List Vec3) (i : ℕ) :
    BranchPoint :=
  let t := linearT P.branchCount i
  let sample := sampleAtT pts t
  let flowerScale := lerpR P.flowerSizeBottom P.flowerSizeTop t
  let rotation := P.rotationAngle * i
  let angle := lerpR P.angleBottom P.angleTop t
  let direction := branchDirection sample angle rotation
  let age := applyAgeDistribution (1 - t) P.ageDistribution
  ⟨sample.position, direction, 0, flowerScale, age⟩

/-- `spike::generate_branch_points`. -/
noncomputable def spikeGenerate (P : InflorescenceParams) (pts : List Vec3) :
    List BranchPoint :=
  (List.range P.branchCount).map (spikeBranch P pts)

/-- `umbel::generate_branch_points`, one loop iteration: all branches from
the axis-top sample, top-valued length/angle/scale, fixed base age `1.0`. -/
noncomputable def umbelBranch (P : InflorescenceParams) (pts : List Vec3) (i : ℕ) :
    BranchPoint :=
  let sample := sampleAtT pts 1
  let rotation := P.rotationAngle * i
  let direction := branchDirection sample P.angleTop rotation
  let position := sample.position + Vec3.smul P.branchLengthTop direction
  let age := applyAgeDistribution 1 P.ageDistribution
  ⟨position, direction, P.branchLengthTop, P.flowerSizeTop, age⟩

/-- `umbel::generate_branch_points`. -/
noncomputable def umbelGenerate (P : InflorescenceParams) (pts : List Vec3) :
    List BranchPoint :=
  (List.range P.branchCount).map (umbelBranch P pts)

/-- `corymb`'s pedicel length: solve for the axis-top target height when
`|direction.y| > 0.01`, clamped at `0`; otherwise the interpolated default. -/
noncomputable def corymbLength (P : InflorescenceParams) (targetHeight : ℝ)
    (sample : AxisSample) (direction : Vec3) (t : ℝ) : ℝ :=
  if 1 / 100 < |direction.y| then max ((targetHeight - sample.position.y) / direction.y) 0
  else lerpR P.branchLengthBottom P.branchLengthTop t

/-- `corymb::generate_branch_points`, one loop iteration. -/
noncomputable def corymbBranch (P : InflorescenceParams) (pts : List Vec3) (i : ℕ) :
    BranchPoint :=
  let targetHeight := (sampleAtT pts 1).position.y
  let t := linearT P.branchCount i
  let sample := sampleAtT pts t
  let angle := lerpR P.angleBottom P.angleTop t
  let flowerScale := lerpR P.flowerSizeBottom P.flowerSizeTop t
  let rotation := P.rotationAngle * i
  let direction := branchDirection sample angle rotation
  let length := corymbLength P targetHeight sample direction t
  let position := sample.position + Vec3.smul length direction
  let age := applyAgeDistribution (1 - t) P.ageDistribution
  ⟨position, direction, length, flowerScale, age⟩

/-- `corymb::generate_branch_points`. -/
noncomputable def corymbGenerate (P : InflorescenceParams) (pts : List Vec3) :
    List BranchPoint :=
  (List.range P.branchCount).map (corymbBranch P pts)

/-- `BranchNode` (shared helper shape of `dichasium.rs` / `drepanium.rs`). -/
structure BranchNode where
  position : Vec3
  direction : Vec3
  length : ℝ
  depth : ℕ

/-- `dichasium::build_tree_recursive`: parent node first, then the left
subtree (`+angle_divergence` about the fixed branching axis), then the
right subtree (`-angle_divergence`). -/
noncomputable def buildTreeRecursive (node : BranchNode) (maxDepth : ℕ)
    (branchRatio angleDivergence : ℝ) (branchingAxis : Vec3) : List BranchNode :=
  if maxDepth ≤ node.depth then [node]
  else
    let branchEnd := node.position + Vec3.smul node.length node.direction
    let leftDir := Vec3.normalize
      (rotateAxisAngle branchingAxis (toRadians angleDivergence) node.direction)
    let leftChild : BranchNode := ⟨branchEnd, leftDir, node.length * branchRatio, node.depth + 1⟩
    let rightDir := Vec3.normalize
      (rotateAxisAngle branchingAxis (-(toRadians angleDivergence)) node.direction)
    let rightChild : BranchNode :=
      ⟨branchEnd, rightDir, node.length * branchRatio, node.depth + 1⟩
    node ::
      (buildTreeRecursive leftChild maxDepth branchRatio angleDivergence branchingAxis ++
        buildTreeRecursive rightChild maxDepth branchRatio angleDivergence branchingAxis)
termination_by maxDepth - node.depth
decreasing_by all_goals simp_wf <;> omega

/-- `dichasium::nodes_to_branch_points` (applies `apply_age_distribution`). -/
noncomputable def dichasiumNodesToBranchPoints (nodes : List BranchNode) (maxDepth : ℕ)
    (P : InflorescenceParams) : List BranchPoint :=
  nodes.map fun node =>
    let position := node.position + Vec3.smul node.length node.direction
    let baseAge := if 0 < maxDepth then 1 - (node.depth : ℝ) / (maxDepth : ℝ) else 1
    let age := applyAgeDistribution baseAge P.ageDistribution
    let t := (node.depth : ℝ) / ((max maxDepth 1 : ℕ) : ℝ)
    let flowerScale := P.flowerSizeTop * (1 - t * (4 / 10))
    ⟨position, node.direction, node.length, flowerScale, age⟩

/-- `dichasium::generate_branch_points`. -/
noncomputable def dichasiumGenerate (P : InflorescenceParams) (pts : List Vec3) :
    List BranchPoint :=
  let maxDepth := P.recursionDepth.getD 1
  let branchRatio := P.branchRatio.getD (7 / 10)
  let angleDiv := P.angleDivergence.getD 30
  let sample := sampleAtT pts 1
  let root : BranchNode := ⟨sample.position, sample.normal, P.branchLengthTop, 0⟩
  dichasiumNodesToBranchPoints
    (buildTreeRecursive root maxDepth branchRatio angleDiv sample.binormal) maxDepth P

/-- `drepanium::build_spiral_recursive`: one child per node, spiralled
about the parent's own direction plus a fixed `-15°` tilt. -/
noncomputable def buildSpiralRecursive (node : BranchNode) (maxDepth : ℕ)
    (branchRatio spiralAngle : ℝ) : List BranchNode :=
  if maxDepth ≤ node.depth then [node]
  else
    let branchEnd := node.position + Vec3.smul node.length node.direction
    let perpendicular :=
      if |node.direction.y| < 9 / 10 then
        Vec3.normalize (Vec3.cross Vec3.yHat node.direction)
      else Vec3.normalize (Vec3.cross Vec3.xHat node.direction)
    let childDir := Vec3.normalize
      (rotateAxisAngle perpendicular (-(toRadians 15))
        (rotateAxisAngle (Vec3.normalize node.direction) (toRadians spiralAngle)
          node.direction))
    let child : BranchNode := ⟨branchEnd, childDir, node.length * branchRatio, node.depth + 1⟩
    node :: buildSpiralRecursive child maxDepth branchRatio spiralAngle
termination_by maxDepth - node.depth
decreasing_by all_goals simp_wf <;> omega

/-- `drepanium::nodes_to_branch_points`: ages are raw
`1 - depth / max_depth`, with no `apply_age_distribution` call. -/
noncomputable def drepaniumNodesToBranchPoints (nodes : List BranchNode) (maxDepth : ℕ)
    (P : InflorescenceParams) : List BranchPoint :=
  nodes.map fun node =>
    let position := node.position + Vec3.smul node.length node.direction
    let age := if 0 < maxDepth then 1 - (node.depth : ℝ) / (maxDepth : ℝ) else 1
    let t := (node.depth : ℝ) / ((max maxDepth 1 : ℕ) : ℝ)
    let flowerScale := P.flowerSizeTop * (1 - t * (3 / 10))
    ⟨position, node.direction, node.length, flowerScale, age⟩

/-- `drepanium::generate_branch_points`. -/
noncomputable def drepaniumGenerate (P : InflorescenceParams) (pts : List Vec3) :
    List BranchPoint :=
  let maxDepth := P.recursionDepth.getD 5
  let branchRatio := P.branchRatio.getD (8 / 10)
  let spiralAngle := P.rotationAngle
  let sample := sampleAtT pts 1
  let root : BranchNode := ⟨sample.position, sample.normal, P.branchLengthTop, 0⟩
  drepaniumNodesToBranchPoints
    (buildSpiralRecursive root maxDepth branchRatio spiralAngle) maxDepth P

/-- Node count of the dichasium tree: a node at depth `k` under maximum
depth `m` contributes exactly `2^(m - k + 1) - 1` nodes. -/
lemma buildTreeRecursive_length :
    ∀ (d : ℕ) (node : BranchNode) (maxDepth : ℕ) (r a : ℝ) (ax : Vec3),
      maxDepth - node.depth = d →
      (buildTreeRecursive node maxDepth r a ax).length = 2 ^ (d + 1) - 1 := by
  intro d
  induction d using Nat.strong_induction_on with
  | _ d ih =>
    intro node maxDepth r a ax hd
    by_cases h : maxDepth ≤ node.depth
    · rw [buildTreeRecursive, if_pos h]
      have hd0 : d = 0 := by omega
      subst hd0
      simp
    · rw [buildTreeRecursive, if_neg h]
      simp only [List.length_cons, List.length_append]
      have hd1 : 1 ≤ d := by omega
      have hL := ih (d - 1) (by omega)
        ⟨node.position + Vec3.smul node.length node.direction,
          Vec3.normalize (rotateAxisAngle ax (toRadians a) node.direction),
          node.length * r, node.depth + 1⟩ maxDepth r a ax (by simp; omega)
      have hR := ih (d - 1) (by omega)
        ⟨node.position + Vec3.smul node.length node.direction,
          Vec3.normalize (rotateAxisAngle ax (-(toRadians a)) node.direction),
          node.length * r, node.depth + 1⟩ maxDepth r a ax (by simp; omega)
      rw [hL, hR]
      have hpow : 1 ≤ 2 ^ (d - 1 + 1) := Nat.one_le_two_pow
      have he : d - 1 + 1 = d := by omega
      rw [he] at hpow ⊢
      have hpow2 : 2 ^ (d + 1) = 2 ^ d + 2 ^ d := by
        rw [pow_succ]
        ring
      omega

/-- Node count of the drepanium chain: a node at depth `k` under maximum
depth `m` contributes exactly `m - k + 1` nodes. -/
lemma buildSpiralRecursive_length :
    ∀ (d : ℕ) (node : BranchNode) (maxDepth : ℕ) (r s : ℝ),
      maxDepth - node.depth = d →
      (buildSpiralRecursive node maxDepth r s).length = d + 1 := by
  intro d
  induction d using Nat.strong_induction_on with
  | _ d ih =>
    intro node maxDepth r s hd
    by_cases h : maxDepth ≤ node.depth
    · rw [buildSpiralRecursive, if_pos h]
      have hd0 : d = 0 := by omega
      subst hd0
      simp
    · rw [buildSpiralRecursive, if_neg h]
      simp only [List.length_cons]
      have hC := ih (d - 1) (by omega)
        ⟨node.position + Vec3.smul node.length node.direction,
          Vec3.normalize
            (rotateAxisAngle
              (if |node.direction.y| < 9 / 10 then
                Vec3.normalize (Vec3.cross Vec3.yHat node.direction)
              else Vec3.normalize (Vec3.cross Vec3.xHat node.direction))
              (-(toRadians 15))
              (rotateAxisAngle (Vec3.normalize node.direction) (toRadians s)
                node.direction)),
          node.length * r, node.depth + 1⟩ maxDepth r s (by simp; omega)
      rw [hC]
      omega

/-- C1: for every recursion depth `d` (and any branch ratio, angle
divergence, and axis of at least 2 points), the dichasium generator returns
exactly `2^(d+1) - 1` branch points and the drepanium generator exactly
`d + 1`. -/
theorem recursive_pattern_counts (P : InflorescenceParams) (pts : List Vec3) (d : ℕ)
    (h2 : 2 ≤ pts.length) (hd : P.recursionDepth = some d) :
    (dichasiumGenerate P pts).length = 2 ^ (d + 1) - 1 ∧
    (drepaniumGenerate P pts).length = d + 1 := by
  unfold dichasiumGenerate drepaniumGenerate dichasiumNodesToBranchPoints
    drepaniumNodesToBranchPoints
  simp only [hd, Option.getD_some, List.length_map]
  constructor
  · exact buildTreeRecursive_length d _ d _ _ _ (by simp)
  · exact buildSpiralRecursive_length d _ d _ _ (by simp)

/-- Witness for `recursive_pattern_counts`: depth 2 over the vertical
two-point axis gives 7 dichasium and 3 drepanium branch points. -/
theorem recursive_pattern_counts_witness :
    (dichasiumGenerate { defaultParams with recursionDepth := some 2 }
      [⟨0, 0, 0⟩, ⟨0, 1, 0⟩]).length = 2 ^ (2 + 1) - 1 ∧
    (drepaniumGenerate { defaultParams with recursionDepth := some 2 }
      [⟨0, 0, 0⟩, ⟨0, 1, 0⟩]).length = 2 + 1 :=
  recursive_pattern_counts { defaultParams with recursionDepth := some 2 }
    [⟨0, 0, 0⟩, ⟨0, 1, 0⟩] 2 (by norm_num) rfl

/-- The drepanium chain visits depths `node.depth, …, maxDepth` in order. -/
lemma buildSpiralRecursive_depths :
    ∀ (d : ℕ) (node : BranchNode) (maxDepth : ℕ) (r s : ℝ),
      maxDepth - node.depth = d →
      (buildSpiralRecursive node maxDepth r s).map BranchNode.depth =
        List.range' node.depth (d + 1) := by
  intro d
  induction d using Nat.strong_induction_on with
  | _ d ih =>
    intro node maxDepth r s hd
    by_cases h : maxDepth ≤ node.depth
    · rw [buildSpiralRecursive, if_pos h]
      have hd0 : d = 0 := by omega
      subst hd0
      rfl
    · rw [buildSpiralRecursive, if_neg h]
      simp only [List.map_cons]
      have hC := ih (d - 1) (by omega)
        ⟨node.position + Vec3.smul node.length node.direction,
          Vec3.normalize
            (rotateAxisAngle
              (if |node.direction.y| < 9 / 10 then
                Vec3.normalize (Vec3.cross Vec3.yHat node.direction)
              else Vec3.normalize (Vec3.cross Vec3.xHat node.direction))
              (-(toRadians 15))
              (rotateAxisAngle (Vec3.normalize node.direction) (toRadians s)
                node.direction)),
          node.length * r, node.depth + 1⟩ maxDepth r s (by simp; omega)
      rw [hC]
      have he : d - 1 + 1 = d := by omega
      rw [he, show d + 1 = d + 1 from rfl, List.range'_succ]

/-- C9: the drepanium generator's output does not depend on the
`age_distribution` field, and its emitted ages are the raw
`1 - depth / max_depth` values (never passed through
`apply_age_distribution`). -/
theorem drepanium_ignores_age_distribution (P : InflorescenceParams) (pts : List Vec3)
    (h2 : 2 ≤ pts.length) (d1 d2 : ℝ) :
    drepaniumGenerate { P with ageDistribution := d1 } pts =
      drepaniumGenerate { P with ageDistribution := d2 } pts ∧
    (drepaniumGenerate P pts).map BranchPoint.age =
      (List.range (P.recursionDepth.getD 5 + 1)).map
        (fun k : ℕ => if 0 < P.recursionDepth.getD 5 then
          1 - (k : ℝ) / (P.recursionDepth.getD 5 : ℝ) else 1) := by
  refine ⟨rfl, ?_⟩
  have hdep := buildSpiralRecursive_depths (P.recursionDepth.getD 5)
    ⟨(sampleAtT pts 1).position, (sampleAtT pts 1).normal, P.branchLengthTop, 0⟩
    (P.recursionDepth.getD 5) (P.branchRatio.getD (8 / 10)) P.rotationAngle (by simp)
  have hmaps : (drepaniumGenerate P pts).map BranchPoint.age =
      ((buildSpiralRecursive
          ⟨(sampleAtT pts 1).position, (sampleAtT pts 1).normal, P.branchLengthTop, 0⟩
          (P.recursionDepth.getD 5) (P.branchRatio.getD (8 / 10)) P.rotationAngle).map
        BranchNode.depth).map
        (fun k : ℕ => if 0 < P.recursionDepth.getD 5 then
          1 - (k : ℝ) / (P.recursionDepth.getD 5 : ℝ) else 1) := by
    unfold drepaniumGenerate drepaniumNodesToBranchPoints
    rw [List.map_map, List.map_map]
    rfl
  rw [hmaps, hdep, List.range_eq_range']

/-- Witness for `drepanium_ignores_age_distribution`: default parameters on
the vertical two-point axis, `age_distribution` `0` versus `1`. -/
theorem drepanium_ignores_age_distribution_witness :
    drepaniumGenerate { defaultParams with ageDistribution := 0 }
      [⟨0, 0, 0⟩, ⟨0, 1, 0⟩] =
    drepaniumGenerate { defaultParams with ageDistribution := 1 }
      [⟨0, 0, 0⟩, ⟨0, 1, 0⟩] :=
  (drepanium_ignores_age_distribution defaultParams [⟨0, 0, 0⟩, ⟨0, 1, 0⟩]
    (by norm_num) 0 1).1

/-- C3 (amended): every umbel branch point has age
`apply_age_distribution(1.0, age_distribution)` — equal to `1.0` exactly
when `age_distribution = 0.5` — and all branch points share identical
length (`branch_length_top`), flower scale (`flower_size_top`), and age. -/
theorem umbel_uniform (P : InflorescenceParams) (pts : List Vec3) (h2 : 2 ≤ pts.length) :
    ∀ bp ∈ umbelGenerate P pts,
      bp.age = applyAgeDistribution 1 P.ageDistribution ∧
      bp.length = P.branchLengthTop ∧
      bp.flowerScale = P.flowerSizeTop ∧
      (P.ageDistribution = 1 / 2 → bp.age = 1) := by
  intro bp hbp
  unfold umbelGenerate at hbp
  obtain ⟨i, hi, rfl⟩ := List.mem_map.mp hbp
  refine ⟨rfl, rfl, rfl, ?_⟩
  intro h
  show applyAgeDistribution 1 P.ageDistribution = 1
  rw [h, applyAgeDistribution]
  norm_num

/-- Witness for `umbel_uniform`: default parameters (12 branches,
`age_distribution = 0.5`) on the vertical two-point axis; the head branch
point exists and carries age `1`. -/
theorem umbel_uniform_witness :
    umbelBranch defaultParams [⟨0, 0, 0⟩, ⟨0, 1, 0⟩] 0 ∈
      umbelGenerate defaultParams [⟨0, 0, 0⟩, ⟨0, 1, 0⟩] ∧
    (umbelBranch defaultParams [⟨0, 0, 0⟩, ⟨0, 1, 0⟩] 0).age = 1 := by
  have hmem : umbelBranch defaultParams [⟨0, 0, 0⟩, ⟨0, 1, 0⟩] 0 ∈
      umbelGenerate defaultParams [⟨0, 0, 0⟩, ⟨0, 1, 0⟩] := by
    unfold umbelGenerate
    exact List.mem_map.mpr ⟨0, by simp [defaultParams], rfl⟩
  exact ⟨hmem,
    ((umbel_uniform defaultParams [⟨0, 0, 0⟩, ⟨0, 1, 0⟩] (by norm_num) _ hmem).2.2.2) rfl⟩

/-- C3 counterexample: with `age_distribution = 1.0` (all other parameters
default, `branch_count = 1`, vertical two-point axis) the umbel branch
point has age `0.55`, not `1.0`: the umbel generator pipes its base age
`1.0` through `apply_age_distribution`. -/
theorem umbel_age_not_always_one :
    ¬ (∀ bp ∈ umbelGenerate { defaultParams with branchCount := 1, ageDistribution := 1 }
        [⟨0, 0, 0⟩, ⟨0, 1, 0⟩], bp.age = 1) := by
  intro hall
  have hmem : umbelBranch { defaultParams with branchCount := 1, ageDistribution := 1 }
      [⟨0, 0, 0⟩, ⟨0, 1, 0⟩] 0 ∈
      umbelGenerate { defaultParams with branchCount := 1, ageDistribution := 1 }
        [⟨0, 0, 0⟩, ⟨0, 1, 0⟩] := by
    unfold umbelGenerate
    exact List.mem_map.mpr ⟨0, by simp, rfl⟩
  have hage := hall _ hmem
  have : applyAgeDistribution 1 1 = 1 := hage
  rw [applyAgeDistribution] at this
  norm_num at this

/-- C5 (amended): with `branch_count = 0` the four linear/single-origin
generators (raceme, spike, umbel, corymb) return the empty list; the
recursive generators ignore `branch_count` entirely and still return
`2^(depth+1) - 1` (dichasium) and `depth + 1` (drepanium) branch points. -/
theorem branch_count_zero (P : InflorescenceParams) (pts : List Vec3)
    (h2 : 2 ≤ pts.length) (h0 : P.branchCount = 0) :
    racemeGenerate P pts = [] ∧ spikeGenerate P pts = [] ∧
    umbelGenerate P pts = [] ∧ corymbGenerate P pts = [] ∧
    (dichasiumGenerate P pts).length = 2 ^ (P.recursionDepth.getD 1 + 1) - 1 ∧
    (drepaniumGenerate P pts).length = P.recursionDepth.getD 5 + 1 := by
  refine ⟨?_, ?_, ?_, ?_, ?_, ?_⟩
  · unfold racemeGenerate
    rw [h0]
    rfl
  · unfold spikeGenerate
    rw [h0]
    rfl
  · unfold umbelGenerate
    rw [h0]
    rfl
  · unfold corymbGenerate
    rw [h0]
    rfl
  · unfold dichasiumGenerate dichasiumNodesToBranchPoints
    simp only [List.length_map]
    exact buildTreeRecursive_length _ _ _ _ _ _ (by simp)
  · unfold drepaniumGenerate drepaniumNodesToBranchPoints
    simp only [List.length_map]
    exact buildSpiralRecursive_length _ _ _ _ _ (by simp)

/-- Witness for `branch_count_zero`: default parameters with
`branch_count := 0` on the vertical two-point axis. -/
theorem branch_count_zero_witness :
    racemeGenerate { defaultParams with branchCount := 0 } [⟨0, 0, 0⟩, ⟨0, 1, 0⟩] = [] :=
  (branch_count_zero { defaultParams with branchCount := 0 } [⟨0, 0, 0⟩, ⟨0, 1, 0⟩]
    (by norm_num) rfl).1

/-- C5 counterexample: the dichasium generator called with
`branch_count = 0` (default recursion depth 1) still returns 3 branch
points, not an empty list. -/
theorem dichasium_nonempty_at_zero_branch_count :
    dichasiumGenerate { defaultParams with branchCount := 0 }
      [⟨0, 0, 0⟩, ⟨0, 1, 0⟩] ≠ [] := by
  have hlen : (dichasiumGenerate { defaultParams with branchCount := 0 }
      [⟨0, 0, 0⟩, ⟨0, 1, 0⟩]).length = 3 := by
    unfold dichasiumGenerate dichasiumNodesToBranchPoints
    simp only [List.length_map]
    exact buildTreeRecursive_length 1 _ 1 _ _ _ (by simp)
  intro h
  rw [h] at hlen
  simp at hlen

/-- At the default `distribution = 0.5` the age remap is the identity. -/
lemma applyAgeDistribution_half (x : ℝ) : applyAgeDistribution x (1 / 2) = x := by
  rw [applyAgeDistribution]
  norm_num

/-- The tilt-then-spin direction of the linear patterns is always unit
length: the sample frame is orthonormal, Rodrigues rotations about its unit
axes preserve length, and the final `normalize` fixes length `1`. -/
lemma branchDirection_unit (pts : List Vec3) (t angle rotation : ℝ) :
    Vec3.length (branchDirection (sampleAtT pts t) angle rotation) = 1 := by
  obtain ⟨ht, hbeq, hb, hneq, hn⟩ :=
    frame_spec pts (segIdx pts (min (max t 0) 1 * totalLength pts))
  have ht' : Vec3.normSq (sampleAtT pts t).tangent = 1 := ht
  have hb' : Vec3.normSq (sampleAtT pts t).binormal = 1 := hb
  have hn' : Vec3.normSq (sampleAtT pts t).normal = 1 := hn
  have h1 : Vec3.normSq (rotateAxisAngle (sampleAtT pts t).binormal (-(toRadians angle))
      (sampleAtT pts t).normal) = 1 := by
    rw [normSq_rotate hb']
    exact hn'
  have h2 : Vec3.normSq (rotateAxisAngle (sampleAtT pts t).tangent (toRadians rotation)
      (rotateAxisAngle (sampleAtT pts t).binormal (-(toRadians angle))
        (sampleAtT pts t).normal)) = 1 := by
    rw [normSq_rotate ht']
    exact h1
  rw [branchDirection, Vec3.length_eq_one_iff]
  exact Vec3.normSq_normalize (by rw [h2]; norm_num)

/-- C2: the raceme generator with `branch_count = 5`, `axis_length = 10`,
`angle_top = 45`, `angle_bottom = 60`, `rotation_angle = 137.5` and the
remaining parameters at their defaults (`age_distribution = 0.5`), over the
straight vertical axis `[(0,0,0), (0,10,0)]`, emits ages exactly
`[1.0, 0.75, 0.5, 0.25, 0.0]` in order, and every emitted direction vector
has unit length. -/
theorem raceme_example_ages_and_directions :
    (racemeGenerate { defaultParams with branchCount := 5 }
        [⟨0, 0, 0⟩, ⟨0, 10, 0⟩]).map BranchPoint.age = [1, 3 / 4, 1 / 2, 1 / 4, 0] ∧
    ∀ bp ∈ racemeGenerate { defaultParams with branchCount := 5 } [⟨0, 0, 0⟩, ⟨0, 10, 0⟩],
      Vec3.length bp.direction = 1 := by
  constructor
  · have hages : ∀ i : ℕ,
        (racemeBranch { defaultParams with branchCount := 5 } [⟨0, 0, 0⟩, ⟨0, 10, 0⟩] i).age =
          1 - linearT 5 i := by
      intro i
      show applyAgeDistribution (1 - linearT 5 i) (1 / 2) = 1 - linearT 5 i
      exact applyAgeDistribution_half _
    show (List.map (racemeBranch { defaultParams with branchCount := 5 }
        [⟨0, 0, 0⟩, ⟨0, 10, 0⟩]) (List.range 5)).map BranchPoint.age = _
    rw [show List.range 5 = [0, 1, 2, 3, 4] from rfl]
    simp only [List.map_cons, List.map_nil]
    rw [hages 0, hages 1, hages 2, hages 3, hages 4]
    norm_num [linearT]
  · intro bp hbp
    obtain ⟨i, hi, rfl⟩ := List.mem_map.mp hbp
    exact branchDirection_unit [⟨0, 0, 0⟩, ⟨0, 10, 0⟩] (linearT 5 i) _ _

/-! ### Concrete evaluation over the vertical axis `[(0,0,0), (0,10,0)]` -/

lemma length_vert10 : Vec3.length (⟨0, 10, 0⟩ : Vec3) = 10 := by
  have h : Vec3.normSq (⟨0, 10, 0⟩ : Vec3) = 100 := by
    rw [Vec3.normSq_eq]
    norm_num
  rw [Vec3.length, h, show (100 : ℝ) = 10 ^ 2 by norm_num,
    Real.sqrt_sq (by norm_num : (0 : ℝ) ≤ 10)]

lemma arc_vert : computeArcLengths [⟨0, 0, 0⟩, ⟨0, 10, 0⟩] = [0, 10] := by
  have hsub : (⟨0, 10, 0⟩ : Vec3) - ⟨0, 0, 0⟩ = ⟨0, 10, 0⟩ := by
    apply Vec3.ext <;> simp
  simp [computeArcLengths, arcAux, hsub, length_vert10]

lemma total_vert : totalLength [⟨0, 0, 0⟩, ⟨0, 10, 0⟩] = 10 := by
  rw [totalLength, arc_vert]
  rfl

lemma segIdx_vert (L : ℝ) (hL : L ≤ 10) : segIdx [⟨0, 0, 0⟩, ⟨0, 10, 0⟩] L = 0 := by
  have hfind : findSegAux (computeArcLengths [⟨0, 0, 0⟩, ⟨0, 10, 0⟩]) L 1 0 = 0 := by
    rw [arc_vert, findSegAux, if_neg]
    simp only [List.getD_cons_succ, List.getD_cons_zero]
    exact not_lt.mpr hL
  simp only [segIdx, List.length_cons, List.length_nil]
  norm_num [hfind]

lemma samplePosition_vert (L : ℝ) (hL : L ≤ 10) :
    samplePosition [⟨0, 0, 0⟩, ⟨0, 10, 0⟩] L = ⟨0, L / 10 * 10, 0⟩ := by
  simp only [samplePosition, segIdx_vert L hL, arc_vert]
  simp only [List.getD_cons_succ, List.getD_cons_zero]
  rw [if_pos (by norm_num : (1 : ℝ) / 10 ^ 6 < 10 - 0)]
  apply Vec3.ext <;> simp [Vec3.lerp]

lemma sampleTangent_vert : sampleTangent [⟨0, 0, 0⟩, ⟨0, 10, 0⟩] 0 = ⟨0, 1, 0⟩ := by
  have htan : tangentAtIndex [⟨0, 0, 0⟩, ⟨0, 10, 0⟩] 0 = ⟨0, 1, 0⟩ := by
    simp only [tangentAtIndex, List.length_cons, List.length_nil]
    norm_num
    have hsub : (⟨0, 10, 0⟩ : Vec3) - ⟨0, 0, 0⟩ = ⟨0, 10, 0⟩ := by
      apply Vec3.ext <;> simp
    simp only [List.getD_cons_succ, List.getD_cons_zero, hsub]
    rw [Vec3.normalizeOr, if_pos (by rw [length_vert10]; norm_num), length_vert10]
    apply Vec3.ext <;> simp [Vec3.smul]
  rw [sampleTangent, htan,
    Vec3.normalizeOrZero_of_normSq_one (by rw [Vec3.normSq_eq]; norm_num)]

lemma sampleNormal0_vert : sampleNormal0 [⟨0, 0, 0⟩, ⟨0, 10, 0⟩] 0 = ⟨1, 0, 0⟩ := by
  have hnai : normalAtIndex [⟨0, 0, 0⟩, ⟨0, 10, 0⟩] 0 ⟨0, 1, 0⟩ = ⟨1, 0, 0⟩ := by
    rw [normalAtIndex]
    rw [if_pos (by norm_num)]
    rw [arbitraryPerpendicular]
    rw [if_neg (by norm_num)]
    have hdot : Vec3.dot Vec3.xHat ⟨0, 1, 0⟩ = 0 := by simp [Vec3.dot, Vec3.xHat]
    rw [hdot]
    have hsub : Vec3.xHat - Vec3.smul 0 ⟨0, 1, 0⟩ = ⟨1, 0, 0⟩ := by
      apply Vec3.ext <;> simp [Vec3.xHat]
    rw [hsub, Vec3.normalizeOr_of_normSq_one (by rw [Vec3.normSq_eq]; norm_num)]
  rw [sampleNormal0, sampleTangent_vert, hnai,
    Vec3.normalizeOrZero_of_normSq_one (by rw [Vec3.normSq_eq]; norm_num)]

lemma sampleBinormal_vert : sampleBinormal [⟨0, 0, 0⟩, ⟨0, 10, 0⟩] 0 = ⟨0, 0, -1⟩ := by
  rw [sampleBinormal, sampleTangent_vert, sampleNormal0_vert]
  have hcross : Vec3.cross ⟨0, 1, 0⟩ ⟨1, 0, 0⟩ = ⟨0, 0, -1⟩ := by
    apply Vec3.ext <;> simp [Vec3.cross]
  rw [hcross, Vec3.normalizeOrZero_of_normSq_one (by rw [Vec3.normSq_eq]; norm_num)]

lemma sampleNormal_vert : sampleNormal [⟨0, 0, 0⟩, ⟨0, 10, 0⟩] 0 = ⟨1, 0, 0⟩ := by
  rw [sampleNormal, sampleBinormal_vert, sampleTangent_vert]
  have hcross : Vec3.cross ⟨0, 0, -1⟩ ⟨0, 1, 0⟩ = ⟨1, 0, 0⟩ := by
    apply Vec3.ext <;> simp [Vec3.cross]
  rw [hcross, Vec3.normalizeOrZero_of_normSq_one (by rw [Vec3.normSq_eq]; norm_num)]

/-- Full sample of the vertical two-point axis at `t ∈ [0, 1]`. -/
lemma sampleAtT_vert (t : ℝ) (h0 : 0 ≤ t) (h1 : t ≤ 1) :
    sampleAtT [⟨0, 0, 0⟩, ⟨0, 10, 0⟩] t =
      ⟨⟨0, t * 10 / 10 * 10, 0⟩, ⟨0, 1, 0⟩, ⟨1, 0, 0⟩, ⟨0, 0, -1⟩⟩ := by
  have hclamp : min (max t 0) 1 = t := by
    rw [max_eq_left h0, min_eq_left h1]
  rw [sampleAtT, hclamp, total_vert, sampleAtArcLength]
  have hL : t * 10 ≤ 10 := by linarith
  rw [samplePosition_vert _ hL, segIdx_vert _ hL, sampleTangent_vert, sampleNormal_vert,
    sampleBinormal_vert]

lemma toRadians_zero : toRadians 0 = 0 := by simp [toRadians]

lemma rotateAxisAngle_zero (axis v : Vec3) : rotateAxisAngle axis 0 v = v := by
  apply Vec3.ext <;> simp [rotateAxisAngle, Real.cos_zero, Real.sin_zero]

/-- C4 (amended): the corymb stalk length is
`max(0, (target_height − sample.y) / direction.y)` whenever
`|direction.y| > 0.01` and the linearly interpolated default length
otherwise; and whenever the solved (unclamped) length is the one used —
`|direction.y| > 0.01` and the ratio non-negative — the branch tip height
equals the axis-top height exactly. -/
theorem corymb_length_and_flat_top (P : InflorescenceParams) (pts : List Vec3)
    (h2 : 2 ≤ pts.length) (i : ℕ) (hi : i < P.branchCount) :
    (corymbBranch P pts i).length =
      corymbLength P ((sampleAtT pts 1).position.y)
        (sampleAtT pts (linearT P.branchCount i))
        (branchDirection (sampleAtT pts (linearT P.branchCount i))
          (lerpR P.angleBottom P.angleTop (linearT P.branchCount i))
          (P.rotationAngle * i))
        (linearT P.branchCount i) ∧
    (1 / 100 < |(branchDirection (sampleAtT pts (linearT P.branchCount i))
          (lerpR P.angleBottom P.angleTop (linearT P.branchCount i))
          (P.rotationAngle * i)).y| →
      0 ≤ ((sampleAtT pts 1).position.y -
            (sampleAtT pts (linearT P.branchCount i)).position.y) /
          (branchDirection (sampleAtT pts (linearT P.branchCount i))
            (lerpR P.angleBottom P.angleTop (linearT P.branchCount i))
            (P.rotationAngle * i)).y →
      (corymbBranch P pts i).position.y = (sampleAtT pts 1).position.y) := by
  constructor
  · rfl
  · intro hdy hratio
    have hbp_y : (corymbBranch P pts i).position.y =
        (sampleAtT pts (linearT P.branchCount i)).position.y +
          corymbLength P ((sampleAtT pts 1).position.y)
            (sampleAtT pts (linearT P.branchCount i))
            (branchDirection (sampleAtT pts (linearT P.branchCount i))
              (lerpR P.angleBottom P.angleTop (linearT P.branchCount i))
              (P.rotationAngle * i))
            (linearT P.branchCount i) *
          (branchDirection (sampleAtT pts (linearT P.branchCount i))
            (lerpR P.angleBottom P.angleTop (linearT P.branchCount i))
            (P.rotationAngle * i)).y := rfl
    rw [hbp_y, corymbLength, if_pos hdy, max_eq_left hratio]
    have hdne : (branchDirection (sampleAtT pts (linearT P.branchCount i))
        (lerpR P.angleBottom P.angleTop (linearT P.branchCount i))
        (P.rotationAngle * i)).y ≠ 0 := by
      intro h0
      rw [h0] at hdy
      norm_num at hdy
    field_simp

/-- Witness for `corymb_length_and_flat_top`: default parameters, vertical
two-point axis, branch index `0`. -/
theorem corymb_length_and_flat_top_witness :
    (corymbBranch defaultParams [⟨0, 0, 0⟩, ⟨0, 10, 0⟩] 0).length =
      corymbLength defaultParams ((sampleAtT [⟨0, 0, 0⟩, ⟨0, 10, 0⟩] 1).position.y)
        (sampleAtT [⟨0, 0, 0⟩, ⟨0, 10, 0⟩] (linearT defaultParams.branchCount 0))
        (branchDirection
          (sampleAtT [⟨0, 0, 0⟩, ⟨0, 10, 0⟩] (linearT defaultParams.branchCount 0))
          (lerpR defaultParams.angleBottom defaultParams.angleTop
            (linearT defaultParams.branchCount 0))
          (defaultParams.rotationAngle * (0 : ℕ)))
        (linearT defaultParams.branchCount 0) :=
  (corymb_length_and_flat_top defaultParams [⟨0, 0, 0⟩, ⟨0, 10, 0⟩] (by norm_num) 0
    (by norm_num [defaultParams])).1

/-- C4 counterexample: with `angle_top = angle_bottom = 0` over the
vertical axis, the single corymb branch's direction is horizontal
(`direction.y = 0`), the fallback interpolated length is used, and the tip
stays at height `5` — off the axis-top height `10` by far more than
`1e-2`. -/
theorem corymb_flat_top_fails :
    ¬ (∀ bp ∈ corymbGenerate
          { defaultParams with branchCount := 1, angleTop := 0, angleBottom := 0 }
          [⟨0, 0, 0⟩, ⟨0, 10, 0⟩],
        |bp.position.y - (sampleAtT [⟨0, 0, 0⟩, ⟨0, 10, 0⟩] 1).position.y| ≤ 1 / 100) := by
  intro hall
  have hmem : corymbBranch
      { defaultParams with branchCount := 1, angleTop := 0, angleBottom := 0 }
      [⟨0, 0, 0⟩, ⟨0, 10, 0⟩] 0 ∈
      corymbGenerate { defaultParams with branchCount := 1, angleTop := 0, angleBottom := 0 }
        [⟨0, 0, 0⟩, ⟨0, 10, 0⟩] := by
    unfold corymbGenerate
    exact List.mem_map.mpr ⟨0, by simp, rfl⟩
  have h := hall _ hmem
  have htop : (sampleAtT [⟨0, 0, 0⟩, ⟨0, 10, 0⟩] 1).position.y = 10 := by
    rw [sampleAtT_vert 1 (by norm_num) (by norm_num)]
    norm_num
  have hlin : linearT 1 0 = 1 / 2 := by simp [linearT]
  have hsample : sampleAtT [⟨0, 0, 0⟩, ⟨0, 10, 0⟩] (linearT 1 0) =
      ⟨⟨0, 5, 0⟩, ⟨0, 1, 0⟩, ⟨1, 0, 0⟩, ⟨0, 0, -1⟩⟩ := by
    rw [hlin, sampleAtT_vert (1 / 2) (by norm_num) (by norm_num)]
    norm_num
  have hdir : branchDirection (sampleAtT [⟨0, 0, 0⟩, ⟨0, 10, 0⟩] (linearT 1 0))
      (lerpR 0 0 (linearT 1 0)) (137.5 * ((0 : ℕ) : ℝ)) = ⟨1, 0, 0⟩ := by
    rw [hsample]
    have ha : lerpR 0 0 (linearT 1 0) = 0 := by simp [lerpR]
    have hr : (137.5 : ℝ) * ((0 : ℕ) : ℝ) = 0 := by norm_num
    rw [ha, hr, branchDirection]
    rw [toRadians_zero, neg_zero, rotateAxisAngle_zero, rotateAxisAngle_zero,
      Vec3.normalize_of_normSq_one (by rw [Vec3.normSq_eq]; norm_num)]
  have hbp_y : (corymbBranch
      { defaultParams with branchCount := 1, angleTop := 0, angleBottom := 0 }
      [⟨0, 0, 0⟩, ⟨0, 10, 0⟩] 0).position.y =
      (sampleAtT [⟨0, 0, 0⟩, ⟨0, 10, 0⟩] (linearT 1 0)).position.y +
        corymbLength { defaultParams with branchCount := 1, angleTop := 0, angleBottom := 0 }
          ((sampleAtT [⟨0, 0, 0⟩, ⟨0, 10, 0⟩] 1).position.y)
          (sampleAtT [⟨0, 0, 0⟩, ⟨0, 10, 0⟩] (linearT 1 0))
          (branchDirection (sampleAtT [⟨0, 0, 0⟩, ⟨0, 10, 0⟩] (linearT 1 0))
            (lerpR 0 0 (linearT 1 0)) (137.5 * ((0 : ℕ) : ℝ)))
          (linearT 1 0) *
        (branchDirection (sampleAtT [⟨0, 0, 0⟩, ⟨0, 10, 0⟩] (linearT 1 0))
          (lerpR 0 0 (linearT 1 0)) (137.5 * ((0 : ℕ) : ℝ))).y := rfl
  rw [hbp_y, hdir, corymbLength, if_neg (by norm_num), hsample, htop] at h
  norm_num at h

/-! ## Planar-to-spatial curve reconstruction, from
`floraison-core/src/math/curves.rs` (`reconstruct_3d_curve` and helpers) -/

/-- Segment scan of `resample_uniform_y`
(`while idx < len - 1 && points[idx + 1].y < target`). -/
noncomputable def findResampleIdx (points : List Vec2) (target : ℝ) : ℕ → ℕ → ℕ
  | 0, idx => idx
  | fuel + 1, idx =>
    if (points.getD (idx + 1) ⟨0, 0⟩).y < target then
      findResampleIdx points target fuel (idx + 1)
    else idx

/-- `resample_uniform_y(points, n)`: resample to `n` points with uniform
`y` spacing by linear interpolation. -/
noncomputable def resampleUniformY (points : List Vec2) (n : ℕ) : List Vec2 :=
  let yMin := (points.getD 0 ⟨0, 0⟩).y
  let yMax := (points.getLast?.getD ⟨0, 0⟩).y
  let dy := (yMax - yMin) / ((n - 1 : ℕ) : ℝ)
  (List.range n).map fun (i : ℕ) =>
    let target := yMin + (i : ℝ) * dy
    let idx := findResampleIdx points target (points.length - 1) 0
    if idx < points.length - 1 then
      let p0 := points.getD idx ⟨0, 0⟩
      let p1 := points.getD (idx + 1) ⟨0, 0⟩
      let t := (target - p0.y) / max (p1.y - p0.y) (1 / 10 ^ 6)
      ⟨p0.x + t * (p1.x - p0.x), target⟩
    else points.getLast?.getD ⟨0, 0⟩

/-- `compute_second_derivatives_x(points)`: forward difference at the first
point, central differences in the interior, backward difference at the
last point, all over the squared (floored) first `y` spacing. -/
noncomputable def computeSecondDerivativesX (points : List Vec2) : List ℝ :=
  let n := points.length
  let dy := if 1 < n then
      max |(points.getD 1 ⟨0, 0⟩).y - (points.getD 0 ⟨0, 0⟩).y| (1 / 10 ^ 6)
    else 1
  let dy2 := dy * dy
  ((points.getD 2 ⟨0, 0⟩).x - 2 * (points.getD 1 ⟨0, 0⟩).x + (points.getD 0 ⟨0, 0⟩).x) / dy2 ::
    ((List.range (n - 2)).map fun j =>
      ((points.getD (j + 2) ⟨0, 0⟩).x - 2 * (points.getD (j + 1) ⟨0, 0⟩).x +
        (points.getD j ⟨0, 0⟩).x) / dy2) ++
    [((points.getD (n - 1) ⟨0, 0⟩).x - 2 * (points.getD (n - 2) ⟨0, 0⟩).x +
      (points.getD (n - 3) ⟨0, 0⟩).x) / dy2]

/-- Trapezoidal accumulation loop of `integrate_twice`. -/
noncomputable def trapAux (prev acc : ℝ) : List ℝ → List ℝ
  | [] => []
  | v :: rest => (acc + (v + prev) / 2) :: trapAux v (acc + (v + prev) / 2) rest

/-- One trapezoidal integration pass (`[0.0]` seed, then accumulate). -/
noncomputable def integrateOnce : List ℝ → List ℝ
  | [] => []
  | v :: rest => 0 :: trapAux v 0 rest

/-- `integrate_twice`. -/
noncomputable def integrateTwice (l : List ℝ) : List ℝ := integrateOnce (integrateOnce l)

/-- Sign-flip loop of `determine_z_signs`, walking `dx2` and `dz2` in
lockstep from index 1. -/
noncomputable def zSignsAux (prevDx sign : ℝ) : List ℝ → List ℝ → List ℝ
  | dx :: dxs, z :: zs =>
    let sign' := if dx * prevDx < 0 then -sign else sign
    z * sign' :: zSignsAux dx sign' dxs zs
  | _, _ => []

/-- `determine_z_signs(points_2d, dz2)`: flip the sign whenever `d²x/dy²`
crosses zero; `dz2[0]` is left untouched. -/
noncomputable def determineZSigns (points : List Vec2) (dz2 : List ℝ) : List ℝ :=
  match computeSecondDerivativesX points, dz2 with
  | d0 :: dxs, z0 :: zs => z0 :: zSignsAux d0 1 dxs zs
  | _, _ => dz2

/-- `reconstruct_3d_curve(points_2d)`. -/
noncomputable def reconstruct3dCurve (points : List Vec2) : List Vec3 :=
  let n := points.length
  let uniform := resampleUniformY points n
  let dx2 := computeSecondDerivativesX uniform
  let maxCurvature := max (dx2.foldl (fun acc v => max acc |v|) 0) (1 / 10 ^ 6)
  let dz2 := dx2.map fun d =>
    let val := maxCurvature ^ 2 - d ^ 2
    if 0 < val then Real.sqrt val else 0
  let dz2s := determineZSigns uniform dz2
  let zs := integrateTwice dz2s
  (uniform.zip zs).map fun pz => ⟨pz.1.x, pz.1.y, pz.2⟩

lemma getD_mem' {l : List Vec2} {i : ℕ} (h : i < l.length) : l.getD i ⟨0, 0⟩ ∈ l := by
  rw [List.getD_eq_getElem?_getD, List.getElem?_eq_getElem h]
  exact List.getElem_mem h

lemma getLastD_mem {l : List Vec2} (h : l ≠ []) : l.getLast?.getD ⟨0, 0⟩ ∈ l := by
  rw [List.getLast?_eq_getLast l h]
  exact List.getLast_mem h

/-- One resampled point of a constant-`x` curve keeps `x = c` (both the
interpolation branch and the final-point branch copy an input `x`). -/
lemma resample_point_const_x {points : List Vec2} {c : ℝ} (hne : points ≠ [])
    (hx : ∀ p ∈ points, p.x = c) (target : ℝ) (idx : ℕ) :
    (if idx < points.length - 1 then
      (⟨(points.getD idx ⟨0, 0⟩).x +
          (target - (points.getD idx ⟨0, 0⟩).y) /
            max ((points.getD (idx + 1) ⟨0, 0⟩).y - (points.getD idx ⟨0, 0⟩).y) (1 / 10 ^ 6) *
          ((points.getD (idx + 1) ⟨0, 0⟩).x - (points.getD idx ⟨0, 0⟩).x), target⟩ : Vec2)
    else points.getLast?.getD ⟨0, 0⟩).x = c := by
  have hpos : 0 < points.length := List.length_pos.mpr hne
  split_ifs with h
  · have e0 : (points.getD idx ⟨0, 0⟩).x = c := hx _ (getD_mem' (by omega))
    have e1 : (points.getD (idx + 1) ⟨0, 0⟩).x = c := hx _ (getD_mem' (by omega))
    show (points.getD idx ⟨0, 0⟩).x + _ * ((points.getD (idx + 1) ⟨0, 0⟩).x -
      (points.getD idx ⟨0, 0⟩).x) = c
    rw [e0, e1]
    ring
  · exact hx _ (getLastD_mem hne)

/-- Resampling a constant-`x` curve keeps `x` constant. -/
lemma resample_const_x {points : List Vec2} {c : ℝ} (hne : points ≠ [])
    (hx : ∀ p ∈ points, p.x = c) (n : ℕ) :
    (resampleUniformY points n).length = n ∧
    ∀ p ∈ resampleUniformY points n, p.x = c := by
  constructor
  · simp only [resampleUniformY, List.length_map, List.length_range]
  · intro p hp
    simp only [resampleUniformY, List.mem_map] at hp
    obtain ⟨i, hi, rfl⟩ := hp
    exact resample_point_const_x hne hx _ _

/-- The second derivatives of a constant-`x` curve are identically zero. -/
lemma d2x_const {points : List Vec2} {c : ℝ} (h3 : 3 ≤ points.length)
    (hx : ∀ p ∈ points, p.x = c) :
    computeSecondDerivativesX points = List.replicate points.length 0 := by
  have hxg : ∀ i, i < points.length → (points.getD i ⟨0, 0⟩).x = c :=
    fun i hi => hx _ (getD_mem' hi)
  have hzero : ∀ a b d e : ℝ, a = c → b = c → d = c → (a - 2 * b + d) / e = 0 := by
    intro a b d e ha hb hd
    rw [ha, hb, hd, show c - 2 * c + c = 0 by ring, zero_div]
  simp only [computeSecondDerivativesX]
  rw [hzero _ _ _ _ (hxg 2 (by omega)) (hxg 1 (by omega)) (hxg 0 (by omega)),
    hzero _ _ _ _ (hxg (points.length - 1) (by omega)) (hxg (points.length - 2) (by omega))
      (hxg (points.length - 3) (by omega))]
  have hmap : (List.range (points.length - 2)).map (fun j =>
      ((points.getD (j + 2) ⟨0, 0⟩).x - 2 * (points.getD (j + 1) ⟨0, 0⟩).x +
        (points.getD j ⟨0, 0⟩).x) /
        ((if 1 < points.length then
            max |(points.getD 1 ⟨0, 0⟩).y - (points.getD 0 ⟨0, 0⟩).y| (1 / 10 ^ 6)
          else 1) *
         (if 1 < points.length then
            max |(points.getD 1 ⟨0, 0⟩).y - (points.getD 0 ⟨0, 0⟩).y| (1 / 10 ^ 6)
          else 1))) = List.replicate (points.length - 2) (0 : ℝ) := by
    have hcongr : ∀ j ∈ List.range (points.length - 2),
        ((points.getD (j + 2) ⟨0, 0⟩).x - 2 * (points.getD (j + 1) ⟨0, 0⟩).x +
          (points.getD j ⟨0, 0⟩).x) /
          ((if 1 < points.length then
              max |(points.getD 1 ⟨0, 0⟩).y - (points.getD 0 ⟨0, 0⟩).y| (1 / 10 ^ 6)
            else 1) *
           (if 1 < points.length then
              max |(points.getD 1 ⟨0, 0⟩).y - (points.getD 0 ⟨0, 0⟩).y| (1 / 10 ^ 6)
            else 1)) = (0 : ℝ) := by
      intro j hj
      have hj' := List.mem_range.mp hj
      exact hzero _ _ _ _ (hxg (j + 2) (by omega)) (hxg (j + 1) (by omega))
        (hxg j (by omega))
    rw [List.map_congr_left hcongr, List.map_const', List.length_range]
  rw [hmap]
  have hfin : ∀ m : ℕ, ((0 : ℝ) :: List.replicate m 0) ++ [0] = List.replicate (m + 1 + 1) 0 := by
    intro m
    rw [List.cons_append, List.replicate_succ, List.replicate_succ']
  rw [hfin, show points.length - 2 + 1 + 1 = points.length by omega]

lemma foldl_max_abs_replicate : ∀ (n : ℕ) (a : ℝ), 0 ≤ a →
    (List.replicate n (0 : ℝ)).foldl (fun acc v => max acc |v|) a = a := by
  intro n
  induction n with
  | zero => intro a _; rfl
  | succ m ih =>
    intro a ha
    rw [List.replicate_succ, List.foldl_cons, abs_zero, max_eq_left ha]
    exact ih a ha

lemma zSignsAux_zero_replicate (q : ℝ) : ∀ m : ℕ,
    zSignsAux 0 1 (List.replicate m (0 : ℝ)) (List.replicate m q) = List.replicate m q := by
  intro m
  induction m with
  | zero => rfl
  | succ k ih =>
    rw [List.replicate_succ, List.replicate_succ (n := k), zSignsAux]
    rw [if_neg (by norm_num), mul_one]
    rw [ih]

lemma trapAux_spec (f F : ℕ → ℝ) (hF : ∀ i, F (i + 1) = F i + (f (i + 1) + f i) / 2) :
    ∀ (k j : ℕ), trapAux (f j) (F j) (List.map f (List.range' (j + 1) k)) =
      List.map F (List.range' (j + 1) k) := by
  intro k
  induction k with
  | zero => intro j; rfl
  | succ k ih =>
    intro j
    rw [List.range'_succ, List.map_cons, List.map_cons, trapAux, ← hF j]
    congr 1
    exact ih (j + 1)

lemma integrateOnce_spec (f F : ℕ → ℝ) (hF0 : F 0 = 0)
    (hF : ∀ i, F (i + 1) = F i + (f (i + 1) + f i) / 2) (n : ℕ) :
    integrateOnce (List.map f (List.range n)) = List.map F (List.range n) := by
  cases n with
  | zero => rfl
  | succ m =>
    rw [List.range_eq_range', List.range'_succ, List.map_cons, List.map_cons, integrateOnce,
      show (0 : ℝ) = F 0 from hF0.symm]
    congr 1
    exact trapAux_spec f F hF m 0

lemma integrateOnce_replicate (q : ℝ) (n : ℕ) :
    integrateOnce (List.replicate n q) = List.map (fun i : ℕ => (i : ℝ) * q) (List.range n) := by
  have h := integrateOnce_spec (fun _ : ℕ => q) (fun i : ℕ => (i : ℝ) * q) (by norm_num)
    (by intro i; push_cast; ring) n
  rw [← h]
  congr 1
  rw [List.map_const', List.length_range]

lemma integrateTwice_replicate (q : ℝ) (n : ℕ) :
    integrateTwice (List.replicate n q) =
      List.map (fun i : ℕ => (i : ℝ) ^ 2 * q / 2) (List.range n) := by
  rw [integrateTwice, integrateOnce_replicate]
  exact integrateOnce_spec (fun i : ℕ => (i : ℝ) * q) (fun i : ℕ => (i : ℝ) ^ 2 * q / 2)
    (by norm_num) (by intro i; push_cast; ring) n

/-- `determine_z_signs` is the identity when the curvature list is
identically zero (no sign crossings) — stated for a replicate `dz2`. -/
lemma determineZSigns_replicate {points : List Vec2} (q : ℝ)
    (hdx2 : computeSecondDerivativesX points = List.replicate points.length 0)
    (hpos : 0 < points.length) :
    determineZSigns points (List.replicate points.length q) =
      List.replicate points.length q := by
  obtain ⟨m, hm⟩ : ∃ m, points.length = m + 1 := ⟨points.length - 1, by omega⟩
  rw [determineZSigns.eq_def, hdx2, hm, List.replicate_succ, List.replicate_succ]
  show q :: zSignsAux 0 1 (List.replicate m 0) (List.replicate m q) = q :: List.replicate m q
  rw [zSignsAux_zero_replicate]

/-- Shared evaluation of the whole reconstruction pipeline on a constant-`x`
input: the curvature floor `1e-6` becomes the uniform `d²z/dy²`, and double
trapezoidal integration yields `z_i = i² · 1e-6 / 2` exactly. -/
lemma reconstruct_const_x_z {points : List Vec2} {c : ℝ} (h3 : 3 ≤ points.length)
    (hx : ∀ p ∈ points, p.x = c) :
    (reconstruct3dCurve points).length = points.length ∧
    List.map Vec3.z (reconstruct3dCurve points) =
      List.map (fun i : ℕ => (i : ℝ) ^ 2 * (1 / 10 ^ 6) / 2) (List.range points.length) := by
  have hne : points ≠ [] := List.ne_nil_of_length_pos (by omega)
  obtain ⟨hlen, hcx⟩ := resample_const_x hne hx points.length
  have h3u : 3 ≤ (resampleUniformY points points.length).length := by rw [hlen]; exact h3
  have hdx2 := d2x_const h3u hcx
  have hsigns := determineZSigns_replicate ((1 : ℝ) / 10 ^ 6) hdx2 (by omega)
  simp only [reconstruct3dCurve]
  rw [hdx2, foldl_max_abs_replicate _ 0 le_rfl,
    max_eq_right (by norm_num : (0 : ℝ) ≤ 1 / 10 ^ 6)]
  have happ : (if 0 < ((1 : ℝ) / 10 ^ 6) ^ 2 - (0 : ℝ) ^ 2 then
      Real.sqrt (((1 : ℝ) / 10 ^ 6) ^ 2 - (0 : ℝ) ^ 2) else 0) = 1 / 10 ^ 6 := by
    rw [if_pos (by norm_num),
      show ((1 : ℝ) / 10 ^ 6) ^ 2 - (0 : ℝ) ^ 2 = ((1 / 10 ^ 6 : ℝ)) ^ 2 by ring,
      Real.sqrt_sq (by norm_num)]
  rw [List.map_replicate, happ, hsigns, integrateTwice_replicate, hlen]
  refine ⟨?_, ?_⟩
  · rw [List.length_map, List.length_zip, hlen, List.length_map, List.length_range, min_self]
  · rw [List.map_map]
    show List.map Prod.snd ((resampleUniformY points points.length).zip
      (List.map (fun i : ℕ => (i : ℝ) ^ 2 * (1 / 10 ^ 6) / 2) (List.range points.length))) =
      List.map (fun i : ℕ => (i : ℝ) ^ 2 * (1 / 10 ^ 6) / 2) (List.range points.length)
    exact List.map_snd_zip _ _ (by rw [hlen, List.length_map, List.length_range])

/-- C8: for every 2D input of at least 3 points with constant `x`,
`reconstruct_3d_curve` returns one output point per input point whose `z`
coordinates are exactly `z_i = i² · 1e-6 / 2` — the curvature floor `1e-6`
integrated twice — rather than `0`: small for short inputs but growing
quadratically with the index, so not "approximately 0" uniformly (see the
counterexample at 450 points). Over the real-number embedding every output
coordinate is a (finite) real number by construction. -/
theorem reconstruct_straight_line (points : List Vec2) (c : ℝ)
    (h3 : 3 ≤ points.length) (hx : ∀ p ∈ points, p.x = c) :
    (reconstruct3dCurve points).length = points.length ∧
    List.map Vec3.z (reconstruct3dCurve points) =
      List.map (fun i : ℕ => (i : ℝ) ^ 2 * (1 / 10 ^ 6) / 2) (List.range points.length) :=
  reconstruct_const_x_z h3 hx

/-- C8 witness: the straight vertical segment `[(2,0), (2,1), (2,2)]`. -/
theorem reconstruct_straight_line_witness :
    3 ≤ ([⟨2, 0⟩, ⟨2, 1⟩, ⟨2, 2⟩] : List Vec2).length ∧
    ((reconstruct3dCurve [⟨2, 0⟩, ⟨2, 1⟩, ⟨2, 2⟩]).length =
        ([⟨2, 0⟩, ⟨2, 1⟩, ⟨2, 2⟩] : List Vec2).length ∧
      List.map Vec3.z (reconstruct3dCurve [⟨2, 0⟩, ⟨2, 1⟩, ⟨2, 2⟩]) =
        List.map (fun i : ℕ => (i : ℝ) ^ 2 * (1 / 10 ^ 6) / 2)
          (List.range ([⟨2, 0⟩, ⟨2, 1⟩, ⟨2, 2⟩] : List Vec2).length)) :=
  ⟨by norm_num, reconstruct_straight_line _ 2 (by norm_num)
    (by intro p hp; fin_cases hp <;> rfl)⟩

/-- C8 counterexample: a strictly increasing constant-`x` input of 450
points (a perfectly straight vertical line) whose reconstructed `z` is not
approximately `0`: at the last point `z = 449² · 1e-6 / 2 = 0.1008005`,
exceeding even the coarse tolerance `0.1`. -/
theorem reconstruct_straight_line_z_not_small :
    ((List.range 450).map fun i : ℕ => (⟨0, (i : ℝ)⟩ : Vec2)).Pairwise
      (fun p q => p.y < q.y) ∧
    ¬ ∀ v ∈ reconstruct3dCurve ((List.range 450).map fun i : ℕ => (⟨0, (i : ℝ)⟩ : Vec2)),
      |v.z| < 1 / 10 := by
  constructor
  · rw [List.pairwise_map]
    refine (List.pairwise_lt_range 450).imp ?_
    intro a b h
    show (a : ℝ) < (b : ℝ)
    exact_mod_cast h
  · intro hall
    have hx : ∀ p ∈ (List.range 450).map fun i : ℕ => (⟨0, (i : ℝ)⟩ : Vec2), p.x = 0 := by
      intro p hp
      obtain ⟨i, _, rfl⟩ := List.mem_map.mp hp
      rfl
    have hlen : ((List.range 450).map fun i : ℕ => (⟨0, (i : ℝ)⟩ : Vec2)).length = 450 := by
      rw [List.length_map, List.length_range]
    have h := (reconstruct_const_x_z (c := 0) (by rw [hlen]; norm_num) hx).2
    rw [hlen] at h
    have hmem : ((449 : ℕ) : ℝ) ^ 2 * (1 / 10 ^ 6) / 2 ∈
        List.map Vec3.z (reconstruct3dCurve
          ((List.range 450).map fun i : ℕ => (⟨0, (i : ℝ)⟩ : Vec2))) := by
      rw [h]
      exact List.mem_map_of_mem _ (List.mem_range.mpr (by norm_num))
    obtain ⟨v, hv, hveq⟩ := List.mem_map.mp hmem
    have hsmall := hall v hv
    rw [hveq, abs_of_nonneg (by positivity)] at hsmall
    norm_num at hsmall

end Floraison
